import Mathlib

/-!
# mini-agent: conversation state, security policy, tool dispatcher, agent loop

A shallow embedding of `internal/llm/types.go`, `internal/history/manager.go`,
`internal/tools/executor.go`, `internal/tools/definitions.go`, the platform executors of
`internal/tools/tools_linux.go` and `internal/tools/tools_darwin.go`, and the loop of
`cmd/agent/main.go`.

Conventions of the embedding:

* a Go `error` is its message text, `nil` is `none`;
* a Go `*string` is an `Option String`; a Go slice is a `List`;
* everything outside the process (the model provider, the child processes the
  platform executors spawn) is a surrounding of type `W`, passed explicitly;
* the model additionally keeps a trace of the calls the program makes to
  `ChatCompletion`, `ExecuteTool` and the six platform executors, so that
  "is (not) invoked" can be stated;
* the platform executors take `json.Unmarshal` and the running of a command from a
  `Host`; their surroundings are a `Shell`, which also lists the commands run so far, so
  that "no process is spawned" can be stated;
* standard input is read through a `Scanner`, the `bufio.Scanner` of the source with its
  default buffer: a line of 64 KiB or more is not read, and the error it leaves makes
  `main` end through `log.Fatalf` (`ending`);
* console output (`fmt.Print*`, `log.Print*`) is not part of the model.
-/

namespace MiniAgent

/-! ## `internal/llm/types.go` -/

/-- FunctionCall of `types.go`: the function name and its JSON-encoded arguments. -/
structure FunctionCall where
  Name : String
  Arguments : String
  deriving DecidableEq, Repr, Inhabited

/-- ToolCall of `types.go`; `Typ` is the field `Type` of the source. -/
structure ToolCall where
  ID : String
  Typ : String
  Function : FunctionCall
  deriving DecidableEq, Repr, Inhabited

/-- Message of `types.go`; `Content` is a pointer in the source. -/
structure Message where
  Role : String
  Content : Option String := none
  ToolCalls : List ToolCall := []
  ToolCallID : String := ""
  deriving DecidableEq, Repr, Inhabited

/-- One property of a tool's JSON-Schema parameter object (`definitions.go`). -/
structure Property where
  name : String
  type : String
  description : String
  items : Option String := none
  enum : List String := []
  deriving DecidableEq, Repr

/-- The JSON-Schema object stored in `Function.Parameters`. -/
structure Schema where
  type : String
  properties : List Property
  required : List String
  deriving DecidableEq, Repr

/-- Function of `types.go`: the description of a callable tool. -/
structure Function where
  Name : String
  Description : String
  Parameters : Schema
  deriving DecidableEq, Repr

/-- Tool of `types.go`; `Typ` is the field `Type` of the source. -/
structure Tool where
  Typ : String
  Function : Function
  deriving DecidableEq, Repr

/-- ChatRequest of `types.go`. -/
structure ChatRequest where
  Model : String
  Messages : List Message
  Tools : List Tool
  deriving DecidableEq, Repr

/-- Choice of `types.go`. -/
structure Choice where
  Index : Int
  Message : Message
  deriving DecidableEq, Repr

/-- ChatResponse of `types.go`. -/
structure ChatResponse where
  ID : String
  Model : String
  Choices : List Choice
  deriving DecidableEq, Repr

/-! ## `internal/history/manager.go` -/

/-- HistoryManager of `manager.go`. -/
structure HistoryManager where
  Messages : List Message
  deriving DecidableEq, Repr

/-- NewHistoryManager: an empty history. -/
def NewHistoryManager : HistoryManager :=
  { Messages := [] }

/-- AddUserMessage appends a message of role "user". -/
def HistoryManager.AddUserMessage (h : HistoryManager) (content : String) : HistoryManager :=
  { h with Messages := h.Messages ++ [{ Role := "user", Content := some content }] }

/-- AddSystemMessage appends a message of role "system". -/
def HistoryManager.AddSystemMessage (h : HistoryManager) (content : String) : HistoryManager :=
  { h with Messages := h.Messages ++ [{ Role := "system", Content := some content }] }

/-- AddAssistantMessage overwrites the role of its argument and appends it. -/
def HistoryManager.AddAssistantMessage (h : HistoryManager) (message : Message) : HistoryManager :=
  let message := { message with Role := "assistant" }
  { h with Messages := h.Messages ++ [message] }

/-- AddToolObservation appends a message of role "tool" carrying the call id. -/
def HistoryManager.AddToolObservation (h : HistoryManager) (toolCallID content : String) :
    HistoryManager :=
  { h with Messages := h.Messages ++
      [{ Role := "tool", ToolCallID := toolCallID, Content := some content }] }

/-- GetHistory returns the stored messages. -/
def HistoryManager.GetHistory (h : HistoryManager) : List Message :=
  h.Messages

/-! ## The surroundings and the call trace -/

/-- A call the program makes across one of its internal boundaries. -/
inductive Event where
  /-- `llmClient.ChatCompletion` was called with this request. -/
  | chat (request : ChatRequest)
  /-- `tools.ExecuteTool` was called for this tool call. -/
  | dispatch (toolCall : ToolCall)
  /-- the platform executor `execute<Name>` was called for this tool call. -/
  | exec (name : String) (toolCall : ToolCall)
  deriving DecidableEq, Repr

/-- The surroundings `env` of the process together with the trace of calls made so far. -/
structure World (W : Type) where
  env : W
  trace : List Event

/-- Append one event to the trace. -/
def World.record {W : Type} (w : World W) (e : Event) : World W :=
  { w with trace := w.trace ++ [e] }

/-- What a Go function of type `(string, error)` returns. -/
abbrev Result := String × Option String

/-- A platform executor `func(toolCall llm.ToolCall) (string, error)`; it may read and
change the surroundings (it spawns a child process). -/
abbrev Executor (W : Type) := ToolCall → W → Result × W

/-- The six functions every `tools_<os>.go` file provides; which file is compiled in is
fixed by the build target, so they are a parameter here. -/
structure Executors (W : Type) where
  executePs : Executor W
  executeFind : Executor W
  executeGrep : Executor W
  executeWget : Executor W
  executeSs : Executor W
  executeLsof : Executor W

/-- The six executors with the tool names they are written for. -/
def Executors.named {W : Type} (ex : Executors W) : List (String × Executor W) :=
  [("ps", ex.executePs), ("find", ex.executeFind), ("grep", ex.executeGrep),
   ("wget", ex.executeWget), ("ss", ex.executeSs), ("lsof", ex.executeLsof)]

/-- Call an executor: the call is recorded, then the executor runs on the surroundings. -/
def invoke {W : Type} (name : String) (run : Executor W) (toolCall : ToolCall)
    (w : World W) : Result × World W :=
  let r := run toolCall w.env
  (r.1, { env := r.2, trace := w.trace ++ [Event.exec name toolCall] })

/-! ## `internal/tools/executor.go` -/

/-- The security policy of ExecuteTool (the statements before the `switch`): the error it
returns, or `none` when the tool may run. The deny list is looked at first; the allow
list only restricts when it is non-empty. -/
def policyError (toolName : String) (allowedTools deniedTools : List String) :
    Option String :=
  let isDenied := deniedTools.contains toolName
  if isDenied then
    some ("tool '" ++ toolName ++ "' is in the configured blacklist")
  else if allowedTools.length > 0 then
    let isAllowed := allowedTools.contains toolName
    if !isAllowed then
      some ("tool '" ++ toolName ++ "' is not in the configured whitelist")
    else none
  else none

/-- The `switch toolName` of ExecuteTool: the call of the executor written for the name,
or the unknown-tool error. -/
def routeTool {W : Type} (ex : Executors W) (toolCall : ToolCall) (w : World W) :
    Result × World W :=
  let toolName := toolCall.Function.Name
  if toolName = "ps" then invoke "ps" ex.executePs toolCall w
  else if toolName = "find" then invoke "find" ex.executeFind toolCall w
  else if toolName = "grep" then invoke "grep" ex.executeGrep toolCall w
  else if toolName = "wget" then invoke "wget" ex.executeWget toolCall w
  else if toolName = "ss" then invoke "ss" ex.executeSs toolCall w
  else if toolName = "lsof" then invoke "lsof" ex.executeLsof toolCall w
  else (("", some ("unknown tool: " ++ toolName)), w)

/-- ExecuteTool of `executor.go`: apply the security policy, then dispatch on the name. -/
def ExecuteTool {W : Type} (ex : Executors W) (toolCall : ToolCall)
    (allowedTools deniedTools : List String) (w : World W) : Result × World W :=
  match policyError toolCall.Function.Name allowedTools deniedTools with
  | some err => (("", some err), w)
  | none => routeTool ex toolCall w

/-! ## `internal/tools/definitions.go` -/

/-- GetToolDefinitions of `definitions.go`: the catalog of the six tools. -/
def GetToolDefinitions : List Tool :=
  [ { Typ := "function",
      Function := {
        Name := "ps",
        Description := "列出当前运行的进程。可以根据用户、进程名或 PID 过滤，类似 'ps' 命令。",
        Parameters := {
          type := "object",
          properties := [
            { name := "user", type := "string", description := "按用户名过滤进程。" },
            { name := "name", type := "string", description := "按进程名过滤进程。" },
            { name := "pid", type := "string", description := "按进程 ID 过滤进程。" },
            { name := "options", type := "array", items := some "string",
              description := "ps 命令的额外选项，例如 '-ef' 或 '-aux'。" } ],
          required := [] } } },
    { Typ := "function",
      Function := {
        Name := "find",
        Description := "在文件系统中查找文件或目录。返回所有匹配项的路径。当不指定路径时，默认在当前目录及子目录中查找。",
        Parameters := {
          type := "object",
          properties := [
            { name := "path", type := "string",
              description := "查找的起始路径，例如 '.' (当前目录) 或 '/home/user/'。如果未指定，默认在当前目录递归查找。" },
            { name := "name", type := "string",
              description := "要查找的文件或目录的名称，支持通配符。" },
            { name := "type", type := "string", enum := ["f", "d"],
              description := "查找类型，'f' 表示文件，'d' 表示目录。" },
            { name := "maxdepth", type := "integer",
              description := "查找的最大深度，例如 1 表示只在当前目录查找，不进入子目录。" } ],
          required := ["name"] } } },
    { Typ := "function",
      Function := {
        Name := "grep",
        Description := "在文件中搜索匹配指定模式的行。返回所有匹配的行。",
        Parameters := {
          type := "object",
          properties := [
            { name := "pattern", type := "string",
              description := "要搜索的正则表达式或字符串模式。" },
            { name := "file", type := "string",
              description := "要搜索的文件名或路径。如果是多个文件，可以是以空格分隔的字符串。" },
            { name := "recursive", type := "boolean",
              description := "如果为true，递归搜索目录下的文件，相当于 grep -r。" },
            { name := "ignore_case", type := "boolean",
              description := "如果为true，忽略大小写，相当于 grep -i。" },
            { name := "count_only", type := "boolean",
              description := "如果为true，只返回匹配行的数量，相当于 grep -c。" } ],
          required := ["pattern", "file"] } } },
    { Typ := "function",
      Function := {
        Name := "wget",
        Description := "从互联网下载文件。将文件保存到当前目录或指定路径。",
        Parameters := {
          type := "object",
          properties := [
            { name := "url", type := "string", description := "要下载文件的 URL。" },
            { name := "output_file", type := "string",
              description := "可选。下载后文件的保存名称或路径。" } ],
          required := ["url"] } } },
    { Typ := "function",
      Function := {
        Name := "ss",
        Description := "显示套接字统计信息，用于查看网络连接。可以过滤特定端口或连接状态。",
        Parameters := {
          type := "object",
          properties := [
            { name := "options", type := "array", items := some "string",
              description := "ss 命令的选项，例如 '-l' (监听), '-t' (TCP), '-u' (UDP), '-n' (数字显示), '-p' (显示进程), '-a' (所有套接字)。" },
            { name := "port", type := "integer", description := "过滤指定端口的连接。" },
            { name := "protocol", type := "string",
              description := "过滤指定协议，例如 'tcp' 或 'udp'。" } ],
          required := [] } } },
    { Typ := "function",
      Function := {
        Name := "lsof",
        Description := "列出打开的文件。可以查看进程打开的文件，或端口被哪个进程占用。",
        Parameters := {
          type := "object",
          properties := [
            { name := "path", type := "string", description := "查找打开指定文件的进程。" },
            { name := "port", type := "integer", description := "查找占用指定端口的进程。" },
            { name := "user", type := "string", description := "查找某个用户打开的文件。" },
            { name := "options", type := "array", items := some "string",
              description := "lsof 命令的额外选项，例如 '-i' (列出所有网络文件)。" } ],
          required := [] } } } ]

/-! ## `internal/config/config.go` -/

/-- Config of `config.go`, as LoadConfig hands it to `main`. -/
structure Config where
  APIKey : String
  Model : String
  BaseURL : String
  AllowedTools : List String
  DeniedTools : List String
  deriving DecidableEq, Repr

/-! ## Go library functions used by `main` -/

/-- The white space of `unicode.IsSpace`, by code point. -/
def isSpace (c : Char) : Bool :=
  let n := c.toNat
  n = 9 || n = 10 || n = 11 || n = 12 || n = 13 || n = 32 || n = 0x85 || n = 0xA0 ||
  n = 0x1680 || (0x2000 ≤ n && n ≤ 0x200A) || n = 0x2028 || n = 0x2029 || n = 0x202F ||
  n = 0x205F || n = 0x3000

/-- The function `strings.TrimSpace`: leading and trailing white space removed. -/
def TrimSpace (s : String) : String :=
  ⟨((s.data.dropWhile isSpace).reverse.dropWhile isSpace).reverse⟩

/-- The function `unicode.ToLower` on one rune: the ASCII letters are shifted, every other
ASCII rune is kept, and a rune outside ASCII is looked up in the Unicode case table
`table`, which is a parameter. -/
def toLowerRune (table : Char → Char) (c : Char) : Char :=
  if c.toNat < 128 then
    if 65 ≤ c.toNat ∧ c.toNat ≤ 90 then Char.ofNat (c.toNat + 32) else c
  else table c

/-- The function `strings.ToLower`: every rune mapped by `unicode.ToLower`. -/
def ToLower (table : Char → Char) (s : String) : String :=
  ⟨s.data.map (toLowerRune table)⟩

/-- The constant `bufio.MaxScanTokenSize`: the size the buffer of a scanner may reach. -/
def MaxScanTokenSize : Nat :=
  64 * 1024

/-- The function `dropCR` of bufio: one trailing carriage return is removed. -/
def dropCR (s : String) : String :=
  if s.data.getLast? = some (Char.ofNat 13) then ⟨s.data.dropLast⟩ else s

/-- The runes of a text that lie within its first `n` bytes. (A rune cut by the boundary
is left out: the strings of this development hold whole runes.) -/
def takeBytes : Nat → List Char → List Char
  | _, [] => []
  | n, c :: cs => if c.utf8Size ≤ n then c :: takeBytes (n - c.utf8Size) cs else []

/-- A `bufio.Scanner` on standard input with the default buffer and the line splitter.
`lines` are the lines of the input not yet read, each without its line feed; `err` is the
error the scanner has met, other than the end of the input; `buffer` is the text still in
the buffer when that error was met. -/
structure Scanner where
  lines : List String
  err : Option String := none
  buffer : Option String := none
  deriving DecidableEq, Repr

/-- The call `bufio.NewScanner(os.Stdin)` when standard input holds the lines `stdin`. -/
def NewScanner (stdin : List String) : Scanner :=
  { lines := stdin }

/-- The call `scanner.Scan()` followed by `scanner.Text()`: the line read, or `none` when
Scan returns false, and the scanner afterwards. A line is read when it takes fewer than
`MaxScanTokenSize` bytes, so that its line feed is found within the buffer; a longer line
makes Scan fail with "token too long", the next call hands out the text left in the
buffer, and every later call fails. At the end of the input Scan fails without error. -/
def Scanner.Scan (sc : Scanner) : Option String × Scanner :=
  match sc.err with
  | some _ =>
    match sc.buffer with
    | some text => (some (dropCR text), { sc with buffer := none })
    | none => (none, sc)
  | none =>
    match sc.lines with
    | [] => (none, sc)
    | raw :: rest =>
      if raw.utf8ByteSize < MaxScanTokenSize then
        (some (dropCR raw), { sc with lines := rest })
      else
        (none, { lines := rest, err := some "bufio.Scanner: token too long",
                 buffer := some ⟨takeBytes MaxScanTokenSize raw.data⟩ })

/-- The call `scanner.Err()`: the error met, `none` also after the end of the input. -/
def Scanner.Err (sc : Scanner) : Option String :=
  sc.err

/-! ## `cmd/agent/main.go` -/

/-- The constant `systemPrompt` of `main.go`. -/
def systemPrompt : String :=
"你是一个高度智能且负责任的命令行 Agent，能够理解复杂的自然语言指令，并通过一系列\"思考(Thought)\"、\"行动(Action)\"和\"观察(Observation)\"的迭代循环来完成任务。你的目标是作为一名专家，精确地将用户的意图转化为一系列可执行的系统命令，并在收到执行结果后，根据结果继续推理或提供最终答案。

以下是你必须严格遵守的规则和工作流程：

**工作模式：ReAct 循环**
你将严格遵循 Thought -> Action -> Observation 的循环模式，直到任务成功完成。
- **Thought (思考)**：在采取任何行动之前，你必须先阐述你的思考过程。这包括：
    - 你对用户意图的清晰理解。
    - 你当前正在解决的问题。
    - 你计划采取的下一步行动是什么，以及为什么选择这个行动。
    - 你预期这个行动会带来什么结果，并评估其潜在风险。
    - 如果是多步任务，你还需要思考后续的步骤、依赖关系和整体策略。
    - 思考过程必须清晰、有逻辑，以便于 Agent 和用户理解。
- **Action (行动)**：根据你的思考，调用你被授予的工具。
    - 你必须使用 JSON 格式的 tool_calls 来指定要调用的工具及其参数。
    - 如果任务需要，你可以同时生成多个 tool_calls。
    - **Function Calling 严格要求**：确保为选定的工具提供所有必要且准确的参数。参数值必须符合工具定义的 JSON Schema。如果用户输入不足以形成完整参数，你应在 Thought 中解释原因，并可能请求更多信息，而不是生成不完整的 Action。
- **Observation (观察)**：Agent 将执行你指定的 Action，并将执行结果作为 Observation 反馈给你。你将收到一个 role: tool 的消息，其 content 字段包含命令的实际输出。你必须仔细分析这些 Observation 来进行下一步的 Thought。
- **Task Completion (任务完成)**：当任务成功完成，或者你判断无法通过现有工具继续，或者需要用户提供更多信息时，你可以生成一个最终的总结性回答（非 Tool Call）。这个回答应该清晰、直接，并说明任务的结果或你的限制。

**可用工具和使用指南：**
你只能使用通过 'tools' 参数提供给你的工具。请仔细阅读它们的描述和参数，不要臆造不存在的工具或参数。

**输出格式要求：**
- 如果你决定进行 Thought 和 Action，你的输出应该严格遵循 \"Thought: <你的思考过程>\" 的格式，紧接着是 tool_calls 的JSON结构。
- 如果你认为任务已经完成、无法继续，或者需要用户提供更多信息，则直接输出最终的总结性回答（非 Tool Call）。
- 你的回复不应包含任何额外的寒暄或不必要的文本，保持简洁、专业。"

/-- Everything `main` is given from outside: the loaded configuration, the model client
behind the `llm.LLM` interface, the platform executors compiled in, and the Unicode case
table of the Go library. -/
structure Env (W : Type) where
  cfg : Config
  ChatCompletion : ChatRequest → W → Except String ChatResponse × W
  executors : Executors W
  caseTable : Char → Char

/-- Where control is in `main`. -/
inductive Control where
  /-- at the top of the outer `for`, about to read a user line -/
  | awaitingUserInput
  /-- at the top of the inner `for`, about to call the model -/
  | awaitingModelResponse
  /-- at the head of `for _, toolCall := range assistantMessage.ToolCalls`, with the
  tool calls not yet visited -/
  | confirmingTool (pending : List ToolCall)
  /-- after the outer `for`: the process ends, see `ending` -/
  | sessionEnded
  deriving DecidableEq, Repr

/-- The variables of `main` that live across iterations. -/
structure State (W : Type) where
  control : Control
  histManager : HistoryManager
  scanner : Scanner
  world : World W

/-- How the process ends once control is after the outer `for`. -/
inductive Ending where
  /-- The call of `log.Fatalf` with this message: exit status 1 -/
  | fatal (message : String)
  /-- the line "Agent session ended." and a return from `main` -/
  | normal
  deriving DecidableEq, Repr

/-- The statements of `main` after the outer `for`: a scanner error is fatal. -/
def ending {W : Type} (s : State W) : Ending :=
  match s.scanner.Err with
  | some err => .fatal ("Error reading from stdin: " ++ err)
  | none => .normal

/-- The body of the tool loop once the confirmation line is read: the observation that
is recorded for `toolCall`, and the surroundings afterwards. A line that is "n" or "no"
after trimming and lower-casing cancels; any other line calls ExecuteTool, whose error
is rendered as text; an empty observation is replaced by the placeholder. -/
def observe {W : Type} (env : Env W) (toolCall : ToolCall) (line : String) (w : World W) :
    String × World W :=
  let confirmation := ToLower env.caseTable (TrimSpace line)
  let r : String × World W :=
    if confirmation = "n" ∨ confirmation = "no" then
      ("User cancelled the execution of this tool.", w)
    else
      let r := ExecuteTool env.executors toolCall env.cfg.AllowedTools env.cfg.DeniedTools
        (w.record (Event.dispatch toolCall))
      match r.1.2 with
      | some err => ("Error: " ++ err, r.2)
      | none => (r.1.1, r.2)
  let observation := if r.1 = "" then "(No output)" else r.1
  (observation, r.2)

/-- One read of the user prompt (the head of the outer `for`). When Scan returns false
the outer `for` is left. -/
def stepUserInput {W : Type} (env : Env W) (s : State W) : State W :=
  let read := s.scanner.Scan
  match read.1 with
  | none => { s with scanner := read.2, control := .sessionEnded }
  | some userInput =>
    let trimmedInput := TrimSpace userInput
    if ToLower env.caseTable trimmedInput = "exit" ∨
        ToLower env.caseTable trimmedInput = "quit" then
      { s with scanner := read.2, control := .sessionEnded }
    else if trimmedInput = "" then
      { s with scanner := read.2 }
    else
      { s with scanner := read.2, histManager := s.histManager.AddUserMessage trimmedInput,
               control := .awaitingModelResponse }

/-- One call of the model (the head of the inner `for`). -/
def stepModel {W : Type} (env : Env W) (s : State W) : State W :=
  let request : ChatRequest :=
    { Model := env.cfg.Model, Messages := s.histManager.GetHistory,
      Tools := GetToolDefinitions }
  let r := env.ChatCompletion request s.world.env
  let world : World W := { env := r.2, trace := s.world.trace ++ [Event.chat request] }
  match r.1 with
  | .error _ => { s with world := world, control := .awaitingUserInput }
  | .ok response =>
    match response.Choices with
    | [] => { s with world := world, control := .awaitingUserInput }
    | choice :: _ =>
      let assistantMessage := choice.Message
      let histManager := s.histManager.AddAssistantMessage assistantMessage
      if assistantMessage.ToolCalls.length > 0 then
        { s with world := world, histManager := histManager,
                 control := .confirmingTool assistantMessage.ToolCalls }
      else
        { s with world := world, histManager := histManager,
                 control := .awaitingUserInput }

/-- One iteration of the tool loop. With no tool call left the inner `for` continues;
when the confirmation cannot be read the tool loop is left by `break` and the inner
`for` continues as well. -/
def stepTool {W : Type} (env : Env W) (pending : List ToolCall) (s : State W) : State W :=
  match pending with
  | [] => { s with control := .awaitingModelResponse }
  | toolCall :: pending =>
    let read := s.scanner.Scan
    match read.1 with
    | none => { s with scanner := read.2, control := .awaitingModelResponse }
    | some line =>
      let r := observe env toolCall line s.world
      { control := .confirmingTool pending,
        histManager := s.histManager.AddToolObservation toolCall.ID r.1,
        scanner := read.2,
        world := r.2 }

/-- One step of `main` from the current control point. -/
def step {W : Type} (env : Env W) (s : State W) : State W :=
  match s.control with
  | .awaitingUserInput => stepUserInput env s
  | .awaitingModelResponse => stepModel env s
  | .confirmingTool pending => stepTool env pending s
  | .sessionEnded => s

/-- The state in which `main` enters its outer loop: the history holds the system prompt. -/
def initial {W : Type} (stdin : List String) (w : W) : State W :=
  { control := .awaitingUserInput,
    histManager := NewHistoryManager.AddSystemMessage systemPrompt,
    scanner := NewScanner stdin,
    world := { env := w, trace := [] } }

/-- The state of `main` after `n` steps from `s`. -/
def run {W : Type} (env : Env W) : Nat → State W → State W
  | 0, s => s
  | n + 1, s => run env n (step env s)

/-- The state of `main` after `n` steps on the input lines `stdin`. -/
def mainAfter {W : Type} (env : Env W) (stdin : List String) (w : W) (n : Nat) : State W :=
  run env n (initial stdin w)

/-! ## What the platform executors use from the Go library -/

/-- The argument struct of `executePs`; a field missing in the JSON object keeps its zero
value. -/
structure PsArgs where
  User : String := ""
  Name : String := ""
  PID : String := ""
  Options : List String := []
  deriving DecidableEq, Repr

/-- The argument struct of `executeFind`; `Typ` is the field `Type` of the source. -/
structure FindArgs where
  Path : String := ""
  Name : String := ""
  Typ : String := ""
  MaxDepth : Int := 0
  deriving DecidableEq, Repr

/-- The argument struct of `executeGrep`. -/
structure GrepArgs where
  Pattern : String := ""
  File : String := ""
  Recursive : Bool := false
  IgnoreCase : Bool := false
  CountOnly : Bool := false
  deriving DecidableEq, Repr

/-- The argument struct of `executeWget`. -/
structure WgetArgs where
  URL : String := ""
  OutputFile : String := ""
  deriving DecidableEq, Repr

/-- The argument struct of `executeSs`. -/
structure SsArgs where
  Options : List String := []
  Port : Int := 0
  Protocol : String := ""
  deriving DecidableEq, Repr

/-- The argument struct of `executeLsof`. -/
structure LsofArgs where
  Path : String := ""
  Port : Int := 0
  User : String := ""
  Options : List String := []
  deriving DecidableEq, Repr

/-- A command made by `exec.Command(name, args...)`. `stdin` is set when the standard
input of the command is the standard-output pipe of another command, and then holds the
name and the arguments of that command. -/
structure Cmd where
  name : String
  args : List String
  stdin : Option (String × List String) := none
  deriving DecidableEq, Repr

/-- A non-nil `error` returned by running a command: its text, and its exit code when
it is an `*exec.ExitError`. `CombinedOutput` returns no error when the command ran and
exited with status 0. -/
structure CmdError where
  text : String
  exitCode : Option Int
  deriving DecidableEq, Repr

/-- What the executors call outside this repository: `json.Unmarshal` into each argument
struct (the text of the error when the payload is malformed), and the three ways a
command is run, each on the surroundings `P`. -/
structure Host (P : Type) where
  unmarshalPs : String → Except String PsArgs
  unmarshalFind : String → Except String FindArgs
  unmarshalGrep : String → Except String GrepArgs
  unmarshalWget : String → Except String WgetArgs
  unmarshalSs : String → Except String SsArgs
  unmarshalLsof : String → Except String LsofArgs
  CombinedOutput : Cmd → P → (String × Option CmdError) × P
  StdoutPipe : Cmd → P → Option String × P
  Start : Cmd → P → Option String × P

/-- The surroundings of the executors together with the commands run so far. -/
structure Shell (P : Type) where
  env : P
  spawned : List Cmd
  deriving DecidableEq, Repr

/-- The call `cmd.CombinedOutput()`: the command is recorded as run. -/
def combinedOutput {P : Type} (host : Host P) (cmd : Cmd) (w : Shell P) :
    (String × Option CmdError) × Shell P :=
  let r := host.CombinedOutput cmd w.env
  (r.1, { env := r.2, spawned := w.spawned ++ [cmd] })

/-- The call `cmd.StdoutPipe()`: no command is run by it. -/
def stdoutPipe {P : Type} (host : Host P) (cmd : Cmd) (w : Shell P) :
    Option String × Shell P :=
  let r := host.StdoutPipe cmd w.env
  (r.1, { w with env := r.2 })

/-- The call `cmd.Start()`: the command is recorded as run. -/
def start {P : Type} (host : Host P) (cmd : Cmd) (w : Shell P) : Option String × Shell P :=
  let r := host.Start cmd w.env
  (r.1, { env := r.2, spawned := w.spawned ++ [cmd] })

/-- The fields of a list of runes: the maximal runs without white space, `cur` being the
run under way, reversed. -/
def fieldsFrom : List Char → List Char → List String
  | [], cur => if cur = [] then [] else [⟨cur.reverse⟩]
  | c :: cs, cur =>
    if isSpace c then
      if cur = [] then fieldsFrom cs [] else ⟨cur.reverse⟩ :: fieldsFrom cs []
    else fieldsFrom cs (c :: cur)

/-- The function `strings.Fields`: the string split around runs of white space. -/
def Fields (s : String) : List String :=
  fieldsFrom s.data []

/-- The function `strings.Join`. -/
def Join (elems : List String) (sep : String) : String :=
  sep.intercalate elems

/-! ## `internal/tools/tools_linux.go` -/

/-- The Linux `executePs`. -/
def Linux.executePs {P : Type} (host : Host P) : Executor (Shell P) := fun toolCall w =>
  match host.unmarshalPs toolCall.Function.Arguments with
  | .error err => (("", some ("error decoding 'ps' arguments: " ++ err)), w)
  | .ok args =>
    let cmdArgs : List String :=
      if args.Options.length > 0 then [] ++ args.Options else [] ++ ["aux"]
    if args.User ≠ "" then
      let r := combinedOutput host { name := "ps", args := ["-u", args.User] } w
      match r.1.2 with
      | some err =>
        (("", some ("command 'ps -u " ++ args.User ++ "' failed: " ++ err.text ++
          ", output: " ++ r.1.1)), r.2)
      | none => ((r.1.1, none), r.2)
    else if args.Name ≠ "" then
      let r := combinedOutput host { name := "pgrep", args := ["-af", args.Name] } w
      match r.1.2 with
      | some err =>
        if err.exitCode = some 1 then
          (("No matching processes found by name.", none), r.2)
        else
          (("", some ("command 'pgrep -af " ++ args.Name ++ "' failed: " ++ err.text ++
            ", output: " ++ r.1.1)), r.2)
      | none => ((r.1.1, none), r.2)
    else if args.PID ≠ "" then
      let r := combinedOutput host { name := "ps", args := ["-p", args.PID] } w
      match r.1.2 with
      | some err =>
        (("", some ("command 'ps -p " ++ args.PID ++ "' failed: " ++ err.text ++
          ", output: " ++ r.1.1)), r.2)
      | none => ((r.1.1, none), r.2)
    else
      let r := combinedOutput host { name := "ps", args := cmdArgs } w
      match r.1.2 with
      | some err =>
        (("", some ("command 'ps " ++ Join cmdArgs " " ++ "' failed: " ++ err.text ++
          ", output: " ++ r.1.1)), r.2)
      | none => ((r.1.1, none), r.2)

/-- The Linux `executeFind`. -/
def Linux.executeFind {P : Type} (host : Host P) : Executor (Shell P) := fun toolCall w =>
  match host.unmarshalFind toolCall.Function.Arguments with
  | .error err => (("", some ("error decoding 'find' arguments: " ++ err)), w)
  | .ok args =>
    let args := if args.Path = "" then { args with Path := "." } else args
    let cmdArgs : List String := [args.Path]
    let cmdArgs :=
      if args.MaxDepth > 0 then cmdArgs ++ ["-maxdepth", toString args.MaxDepth] else cmdArgs
    let cmdArgs := if args.Name ≠ "" then cmdArgs ++ ["-name", args.Name] else cmdArgs
    let cmdArgs := if args.Typ ≠ "" then cmdArgs ++ ["-type", args.Typ] else cmdArgs
    if cmdArgs.length = 1 then
      (("", some "at least one of 'name' or 'type' must be provided for find"), w)
    else
      let r := combinedOutput host { name := "find", args := cmdArgs } w
      match r.1.2 with
      | some err =>
        (("", some ("command 'find " ++ Join cmdArgs " " ++ "' failed: " ++ err.text ++
          ", output: " ++ r.1.1)), r.2)
      | none => ((r.1.1, none), r.2)

/-- The argument list the Linux `executeGrep` builds in `cmdArgs`: the flags, the pattern,
the fields of `file`. -/
def Linux.grepCmdArgs (args : GrepArgs) : List String :=
  let cmdArgs : List String := []
  let cmdArgs := if args.Recursive then cmdArgs ++ ["-r"] else cmdArgs
  let cmdArgs := if args.IgnoreCase then cmdArgs ++ ["-i"] else cmdArgs
  let cmdArgs := if args.CountOnly then cmdArgs ++ ["-c"] else cmdArgs
  let cmdArgs := cmdArgs ++ [args.Pattern]
  cmdArgs ++ Fields args.File

/-- The Linux `executeGrep`. -/
def Linux.executeGrep {P : Type} (host : Host P) : Executor (Shell P) := fun toolCall w =>
  match host.unmarshalGrep toolCall.Function.Arguments with
  | .error err => (("", some ("error decoding 'grep' arguments: " ++ err)), w)
  | .ok args =>
    if args.Pattern = "" ∨ args.File = "" then
      (("", some "the 'pattern' and 'file' arguments are required for grep"), w)
    else
      let cmdArgs := Linux.grepCmdArgs args
      let r := combinedOutput host { name := "grep", args := cmdArgs } w
      match r.1.2 with
      | some err =>
        if err.exitCode = some 1 then
          (("No matching lines found.", none), r.2)
        else
          (("", some ("command 'grep " ++ Join cmdArgs " " ++ "' failed: " ++ err.text ++
            ", output: " ++ r.1.1)), r.2)
      | none => ((r.1.1, none), r.2)

/-- The Linux `executeWget`. -/
def Linux.executeWget {P : Type} (host : Host P) : Executor (Shell P) := fun toolCall w =>
  match host.unmarshalWget toolCall.Function.Arguments with
  | .error err => (("", some ("error decoding 'wget' arguments: " ++ err)), w)
  | .ok args =>
    if args.URL = "" then
      (("", some "the 'url' argument is required for wget"), w)
    else
      let cmdArgs : List String := []
      let cmdArgs := if args.OutputFile ≠ "" then cmdArgs ++ ["-O", args.OutputFile] else cmdArgs
      let cmdArgs := cmdArgs ++ [args.URL]
      let r := combinedOutput host { name := "wget", args := cmdArgs } w
      match r.1.2 with
      | some err =>
        (("", some ("command 'wget " ++ Join cmdArgs " " ++ "' failed: " ++ err.text ++
          ", output: " ++ r.1.1)), r.2)
      | none =>
        if args.OutputFile ≠ "" then
          (("Successfully downloaded from " ++ args.URL ++ " to " ++ args.OutputFile ++ ".",
            none), r.2)
        else
          (("Successfully downloaded from " ++ args.URL ++ ".", none), r.2)

/-- The Linux `executeSs`. -/
def Linux.executeSs {P : Type} (host : Host P) : Executor (Shell P) := fun toolCall w =>
  match host.unmarshalSs toolCall.Function.Arguments with
  | .error err => (("", some ("error decoding 'ss' arguments: " ++ err)), w)
  | .ok args =>
    let cmdArgs : List String :=
      if args.Options.length > 0 then [] ++ args.Options else [] ++ ["-tan"]
    let filterExpression : List String := []
    let filterExpression :=
      if args.Protocol ≠ "" then filterExpression ++ [args.Protocol] else filterExpression
    let filterExpression :=
      if args.Port > 0 then
        filterExpression ++
          ["( sport = :" ++ toString args.Port ++ " or dport = :" ++ toString args.Port ++ " )"]
      else filterExpression
    let cmdArgs :=
      if filterExpression.length > 0 then
        cmdArgs ++ ["state", "all", "and", Join filterExpression " and "]
      else cmdArgs
    let r := combinedOutput host { name := "ss", args := cmdArgs } w
    match r.1.2 with
    | some err =>
      (("", some ("command 'ss " ++ Join cmdArgs " " ++ "' failed: " ++ err.text ++
        ", output: " ++ r.1.1)), r.2)
    | none => ((r.1.1, none), r.2)

/-- The argument list the Linux `executeLsof` builds in `cmdArgs`. -/
def Linux.lsofCmdArgs (args : LsofArgs) : List String :=
  let cmdArgs : List String := []
  let cmdArgs := if args.Options.length > 0 then cmdArgs ++ args.Options else cmdArgs
  let cmdArgs :=
    if args.Port > 0 then cmdArgs ++ ["-i", ":" ++ toString args.Port] else cmdArgs
  let cmdArgs := if args.User ≠ "" then cmdArgs ++ ["-u", args.User] else cmdArgs
  if args.Path ≠ "" then cmdArgs ++ [args.Path] else cmdArgs

/-- The Linux `executeLsof`. -/
def Linux.executeLsof {P : Type} (host : Host P) : Executor (Shell P) := fun toolCall w =>
  match host.unmarshalLsof toolCall.Function.Arguments with
  | .error err => (("", some ("error decoding 'lsof' arguments: " ++ err)), w)
  | .ok args =>
    if args.Port = 0 ∧ args.Path = "" ∧ args.User = "" ∧ args.Options.length = 0 then
      (("", some
        "at least one of 'port', 'path', 'user', or 'options' must be provided for lsof"), w)
    else
      let cmdArgs := Linux.lsofCmdArgs args
      let r := combinedOutput host { name := "lsof", args := cmdArgs } w
      match r.1.2 with
      | some err =>
        if err.exitCode = some 1 then
          (("No matching processes found.", none), r.2)
        else
          (("", some ("command 'lsof " ++ Join cmdArgs " " ++ "' failed: " ++ err.text ++
            ", output: " ++ r.1.1)), r.2)
      | none => ((r.1.1, none), r.2)

/-- The six executors of the Linux build. -/
def Linux.executors {P : Type} (host : Host P) : Executors (Shell P) :=
  { executePs := Linux.executePs host, executeFind := Linux.executeFind host,
    executeGrep := Linux.executeGrep host, executeWget := Linux.executeWget host,
    executeSs := Linux.executeSs host, executeLsof := Linux.executeLsof host }

/-! ## `internal/tools/tools_darwin.go` -/

/-- The macOS `executePs`: with a name or a user the pipeline `ps ... | grep pattern`. -/
def Darwin.executePs {P : Type} (host : Host P) : Executor (Shell P) := fun toolCall w =>
  match host.unmarshalPs toolCall.Function.Arguments with
  | .error err => (("", some ("error decoding 'ps' arguments: " ++ err)), w)
  | .ok args =>
    let cmdArgs : List String := ["aux"]
    let cmdArgs := if args.Options.length > 0 then args.Options else cmdArgs
    if args.Name ≠ "" ∨ args.User ≠ "" then
      let grepPattern := if args.Name ≠ "" then args.Name else args.User
      let psCmd : Cmd := { name := "ps", args := cmdArgs }
      let pipe := stdoutPipe host psCmd w
      match pipe.1 with
      | some err => (("", some ("failed to create pipe for ps|grep: " ++ err)), pipe.2)
      | none =>
        let grepCmd : Cmd :=
          { name := "grep", args := [grepPattern], stdin := some ("ps", cmdArgs) }
        let started := start host psCmd pipe.2
        match started.1 with
        | some err =>
          (("", some ("failed to start ps command for ps|grep: " ++ err)), started.2)
        | none =>
          let r := combinedOutput host grepCmd started.2
          match r.1.2 with
          | some err =>
            if err.exitCode = some 1 then
              (("No matching processes found.", none), r.2)
            else
              (("", some ("ps|grep pipeline failed: " ++ err.text ++ ", output: " ++ r.1.1)),
                r.2)
          | none => ((r.1.1, none), r.2)
    else
      let r := combinedOutput host { name := "ps", args := cmdArgs } w
      match r.1.2 with
      | some err =>
        (("", some ("command 'ps " ++ Join cmdArgs " " ++ "' failed: " ++ err.text ++
          ", output: " ++ r.1.1)), r.2)
      | none => ((r.1.1, none), r.2)

/-- The macOS `executeFind`. -/
def Darwin.executeFind {P : Type} (host : Host P) : Executor (Shell P) := fun toolCall w =>
  match host.unmarshalFind toolCall.Function.Arguments with
  | .error err => (("", some ("error decoding 'find' arguments: " ++ err)), w)
  | .ok args =>
    let args := if args.Path = "" then { args with Path := "." } else args
    let cmdArgs : List String := [args.Path]
    let cmdArgs :=
      if args.MaxDepth > 0 then cmdArgs ++ ["-maxdepth", toString args.MaxDepth] else cmdArgs
    let cmdArgs := if args.Name ≠ "" then cmdArgs ++ ["-name", args.Name] else cmdArgs
    let cmdArgs := if args.Typ ≠ "" then cmdArgs ++ ["-type", args.Typ] else cmdArgs
    if cmdArgs.length = 1 then
      (("", some "at least one of 'name' or 'type' must be provided for find"), w)
    else
      let r := combinedOutput host { name := "find", args := cmdArgs } w
      match r.1.2 with
      | some err =>
        (("", some ("command 'find " ++ Join cmdArgs " " ++ "' failed: " ++ err.text ++
          ", output: " ++ r.1.1)), r.2)
      | none => ((r.1.1, none), r.2)

/-- The argument list the macOS `executeGrep` builds in `cmdArgs`: the flags, the pattern,
and `file` as one operand. -/
def Darwin.grepCmdArgs (args : GrepArgs) : List String :=
  let cmdArgs : List String := []
  let cmdArgs := if args.Recursive then cmdArgs ++ ["-r"] else cmdArgs
  let cmdArgs := if args.IgnoreCase then cmdArgs ++ ["-i"] else cmdArgs
  let cmdArgs := if args.CountOnly then cmdArgs ++ ["-c"] else cmdArgs
  cmdArgs ++ [args.Pattern, args.File]

/-- The macOS `executeGrep`. -/
def Darwin.executeGrep {P : Type} (host : Host P) : Executor (Shell P) := fun toolCall w =>
  match host.unmarshalGrep toolCall.Function.Arguments with
  | .error err => (("", some ("error decoding 'grep' arguments: " ++ err)), w)
  | .ok args =>
    if args.Pattern = "" ∨ args.File = "" then
      (("", some "the 'pattern' and 'file' arguments are required for grep"), w)
    else
      let cmdArgs := Darwin.grepCmdArgs args
      let r := combinedOutput host { name := "grep", args := cmdArgs } w
      match r.1.2 with
      | some err =>
        if err.exitCode = some 1 then
          (("No matching lines found.", none), r.2)
        else
          (("", some ("command 'grep " ++ Join cmdArgs " " ++ "' failed: " ++ err.text ++
            ", output: " ++ r.1.1)), r.2)
      | none => ((r.1.1, none), r.2)

/-- The macOS `executeWget`. -/
def Darwin.executeWget {P : Type} (host : Host P) : Executor (Shell P) := fun toolCall w =>
  match host.unmarshalWget toolCall.Function.Arguments with
  | .error err => (("", some ("error decoding 'wget' arguments: " ++ err)), w)
  | .ok args =>
    if args.URL = "" then
      (("", some "the 'url' argument is required for wget"), w)
    else
      let cmdArgs : List String := []
      let cmdArgs := if args.OutputFile ≠ "" then cmdArgs ++ ["-O", args.OutputFile] else cmdArgs
      let cmdArgs := cmdArgs ++ [args.URL]
      let r := combinedOutput host { name := "wget", args := cmdArgs } w
      match r.1.2 with
      | some err =>
        (("", some ("command 'wget " ++ Join cmdArgs " " ++ "' failed: " ++ err.text ++
          ", output: " ++ r.1.1)), r.2)
      | none =>
        if args.OutputFile ≠ "" then
          (("Successfully downloaded from " ++ args.URL ++ " to " ++ args.OutputFile ++ ".",
            none), r.2)
        else
          (("Successfully downloaded from " ++ args.URL ++ ".", none), r.2)

/-- The macOS helper `executeLsofForPort`: the command `lsof -i :<port>`. -/
def Darwin.executeLsofForPort {P : Type} (host : Host P) (port : Int) (w : Shell P) :
    Result × Shell P :=
  let r := combinedOutput host { name := "lsof", args := ["-i", ":" ++ toString port] } w
  match r.1.2 with
  | some err =>
    if err.exitCode = some 1 then
      (("No processes found using port " ++ toString port ++ ".", none), r.2)
    else
      (("", some ("lsof command failed for port " ++ toString port ++ ": " ++ err.text ++
        ", output: " ++ r.1.1)), r.2)
  | none => ((r.1.1, none), r.2)

/-- The macOS `executeSs`: there is no `ss`; a positive port is looked up with lsof. -/
def Darwin.executeSs {P : Type} (host : Host P) : Executor (Shell P) := fun toolCall w =>
  match host.unmarshalSs toolCall.Function.Arguments with
  | .error err => (("", some ("error decoding 'ss' arguments: " ++ err)), w)
  | .ok args =>
    if args.Port > 0 then
      Darwin.executeLsofForPort host args.Port w
    else
      (("", some
        "'ss' command is not available on macOS. Try using 'lsof' to check for a specific port"),
        w)

/-- The macOS `executeLsof`. -/
def Darwin.executeLsof {P : Type} (host : Host P) : Executor (Shell P) := fun toolCall w =>
  match host.unmarshalLsof toolCall.Function.Arguments with
  | .error err => (("", some ("error decoding 'lsof' arguments: " ++ err)), w)
  | .ok args =>
    if args.Port = 0 ∧ args.Path = "" ∧ args.User = "" ∧ args.Options.length = 0 then
      (("", some
        "at least one of 'port', 'path', 'user', or 'options' must be provided for lsof"), w)
    else
      let cmdArgs : List String := []
      let hasNonPathArgs := false
      let (cmdArgs, hasNonPathArgs) :=
        if args.Options.length > 0 then (cmdArgs ++ args.Options, true)
        else (cmdArgs, hasNonPathArgs)
      let (cmdArgs, hasNonPathArgs) :=
        if args.Port > 0 then (cmdArgs ++ ["-i", "TCP:" ++ toString args.Port], true)
        else (cmdArgs, hasNonPathArgs)
      let (cmdArgs, hasNonPathArgs) :=
        if args.User ≠ "" then (cmdArgs ++ ["-u", args.User], true)
        else (cmdArgs, hasNonPathArgs)
      if args.Path ≠ "" then
        if hasNonPathArgs then
          let finalArgs := cmdArgs ++ ["--", args.Path]
          let r := combinedOutput host { name := "lsof", args := finalArgs } w
          match r.1.2 with
          | some err =>
            if err.exitCode = some 1 then
              (("No matching processes found.", none), r.2)
            else
              (("", some ("command 'lsof " ++ Join finalArgs " " ++ "' failed: " ++
                err.text ++ ", output: " ++ r.1.1)), r.2)
          | none => ((r.1.1, none), r.2)
        else
          let r := combinedOutput host { name := "lsof", args := [args.Path] } w
          match r.1.2 with
          | some err =>
            if err.exitCode = some 1 then
              (("No matching processes found.", none), r.2)
            else
              (("", some ("command 'lsof " ++ args.Path ++ "' failed: " ++ err.text ++
                ", output: " ++ r.1.1)), r.2)
          | none => ((r.1.1, none), r.2)
      else
        let r := combinedOutput host { name := "lsof", args := cmdArgs } w
        match r.1.2 with
        | some err =>
          if err.exitCode = some 1 then
            (("No matching processes found.", none), r.2)
          else
            (("", some ("command 'lsof " ++ Join cmdArgs " " ++ "' failed: " ++ err.text ++
              ", output: " ++ r.1.1)), r.2)
        | none => ((r.1.1, none), r.2)

/-- The six executors of the macOS build. -/
def Darwin.executors {P : Type} (host : Host P) : Executors (Shell P) :=
  { executePs := Darwin.executePs host, executeFind := Darwin.executeFind host,
    executeGrep := Darwin.executeGrep host, executeWget := Darwin.executeWget host,
    executeSs := Darwin.executeSs host, executeLsof := Darwin.executeLsof host }

/-! ## Predicates used to state the properties -/

/-- The history `new` is the history `old` with one message added at the end: one longer,
`old` a prefix, every old message at its index. -/
def ExtendsByOne (old new : List Message) : Prop :=
  new.length = old.length + 1 ∧ old <+: new ∧
    ∀ i, i < old.length → new[i]? = old[i]?

instance (old new : List Message) : Decidable (ExtendsByOne old new) := by
  unfold ExtendsByOne
  infer_instance

/-- The tool calls for which ExecuteTool was called, in order, according to a trace. -/
def dispatches : List Event → List ToolCall
  | [] => []
  | Event.dispatch toolCall :: t => toolCall :: dispatches t
  | _ :: t => dispatches t

/-- The requests with which ChatCompletion was called, in order, according to a trace. -/
def chats : List Event → List ChatRequest
  | [] => []
  | Event.chat request :: t => request :: chats t
  | _ :: t => chats t

/-- What the loop may add to the history after the system prompt: a user message, an
assistant message, or a tool message with non-empty content. -/
def Appended (m : Message) : Prop :=
  m.Role = "user" ∨ m.Role = "assistant" ∨
    (m.Role = "tool" ∧ ∃ c, m.Content = some c ∧ c ≠ "")

instance (m : Message) : Decidable (Appended m) := by
  unfold Appended
  cases m.Content with
  | none => exact decidable_of_iff (m.Role = "user" ∨ m.Role = "assistant") (by simp)
  | some c =>
    exact decidable_of_iff (m.Role = "user" ∨ m.Role = "assistant" ∨ (m.Role = "tool" ∧ c ≠ ""))
      (by simp)

/-- The messages at the head of `l` answer the tool-call ids `ids`, one tool message per
id and in the same order, and no further tool message follows them. -/
def answersFollow : List String → List Message → Bool
  | [], [] => true
  | [], m :: _ => m.Role != "tool"
  | _ :: _, [] => false
  | id :: ids, m :: l => m.Role == "tool" && m.ToolCallID == id && answersFollow ids l

/-- Tool-message pairing of a conversation: every assistant message that carries tool
calls is followed at once by exactly one tool message per tool call, with the ids of
the calls in issue order. -/
def Paired : List Message → Bool
  | [] => true
  | m :: l =>
    (if m.Role = "assistant" ∧ m.ToolCalls ≠ [] then
      answersFollow (m.ToolCalls.map fun c => c.ID) l else true) && Paired l

/-- In state `s` the confirmation prompt for a pending tool call cannot read a line. -/
def confirmAtEnd {W : Type} (s : State W) : Bool :=
  match s.control with
  | .confirmingTool (_ :: _) => s.scanner.Scan.1.isNone
  | _ => false

/-- The messages `ans` are tool messages answering the calls `done`, one each, in order. -/
def IsAnswers (done : List ToolCall) (ans : List Message) : Prop :=
  ans.map (fun m => (m.Role, m.ToolCallID)) = done.map (fun c => ("tool", c.ID))

instance (done : List ToolCall) (ans : List Message) : Decidable (IsAnswers done ans) := by
  unfold IsAnswers
  infer_instance

/-- The shape of the history at each control point: inside the tool loop it is a paired
conversation followed by the assistant message under work and the answers to its calls
already visited; everywhere else it is a paired conversation. -/
def HistShape {W : Type} (s : State W) : Prop :=
  match s.control with
  | .confirmingTool pending =>
    ∃ pre m done ans, s.histManager.Messages = pre ++ m :: ans ∧ Paired pre = true ∧
      m.Role = "assistant" ∧ m.ToolCalls = done ++ pending ∧ IsAnswers done ans
  | _ => Paired s.histManager.Messages = true

/-! ## Sample data used by the worked instances -/

/-- An executor that answers with its own name and the raw arguments, and counts calls. -/
def echoExecutor (name : String) : Executor Nat :=
  fun toolCall n => ((name ++ ":" ++ toolCall.Function.Arguments, none), n + 1)

/-- Six echo executors. -/
def echoExecutors : Executors Nat :=
  { executePs := echoExecutor "ps", executeFind := echoExecutor "find",
    executeGrep := echoExecutor "grep", executeWget := echoExecutor "wget",
    executeSs := echoExecutor "ss", executeLsof := echoExecutor "lsof" }

/-- A tool call with the given id, name and arguments. -/
def mkCall (id name arguments : String) : ToolCall :=
  { ID := id, Typ := "function", Function := { Name := name, Arguments := arguments } }

/-- Surroundings in which nothing has happened yet. -/
def world0 : World Nat :=
  { env := 0, trace := [] }

/-- An executor that succeeds with no output. -/
def silentExecutor : Executor Nat :=
  fun _ n => (("", none), n + 1)

/-- Six silent executors. -/
def silentExecutors : Executors Nat :=
  { executePs := silentExecutor, executeFind := silentExecutor,
    executeGrep := silentExecutor, executeWget := silentExecutor,
    executeSs := silentExecutor, executeLsof := silentExecutor }

/-- The configuration LoadConfig builds from its defaults and an API key. -/
def sampleConfig : Config :=
  { APIKey := "key", Model := "deepseek-coder", BaseURL := "https://api.deepseek.com/v1",
    AllowedTools := ["ps", "find", "grep", "wget", "ss", "lsof"], DeniedTools := [] }

/-- The tool call `find` with the arguments object holding the name "*.log". -/
def findCall : ToolCall :=
  mkCall "call_1" "find" "\x7b\"name\":\"*.log\"\x7d"

/-- A model client that asks for one `find` call on every request; it answers with the
role "system" to show that the caller-supplied role is not trusted. -/
def alwaysFind : ChatRequest → Nat → Except String ChatResponse × Nat :=
  fun _ n =>
    (.ok { ID := "resp", Model := "deepseek-coder",
           Choices := [{ Index := 0,
                         Message := { Role := "system", ToolCalls := [findCall] } }] }, n)

/-- The loop with the default configuration, the model asking for `find`, silent executors
and no case mapping outside ASCII. -/
def sampleEnv : Env Nat :=
  { cfg := sampleConfig, ChatCompletion := alwaysFind, executors := silentExecutors,
    caseTable := fun c => c }

/-- A state at the confirmation prompt for `findCall`, with the given lines still to read. -/
def confirming (lines : List String) : State Nat :=
  { control := .confirmingTool [findCall],
    histManager := { Messages := [{ Role := "assistant", ToolCalls := [findCall] }] },
    scanner := NewScanner lines,
    world := world0 }

/-- A host on which every payload decodes to the zero values of the argument struct (as
the payload of an empty object does) and every command succeeds with no output; the
surroundings count the calls. -/
def quietHost : Host Nat :=
  { unmarshalPs := fun _ => .ok {},
    unmarshalFind := fun _ => .ok {},
    unmarshalGrep := fun _ => .ok {},
    unmarshalWget := fun _ => .ok {},
    unmarshalSs := fun _ => .ok {},
    unmarshalLsof := fun _ => .ok {},
    CombinedOutput := fun _ n => (("", none), n + 1),
    StdoutPipe := fun _ n => (none, n + 1),
    Start := fun _ n => (none, n + 1) }

/-- A host on which every command ends with the given output and error. -/
def endingHost (output : String) (err : Option CmdError) : Host Nat :=
  { quietHost with CombinedOutput := fun _ n => ((output, err), n + 1) }

/-- Surroundings of the executors in which no command has been run. -/
def shell0 : Shell Nat :=
  { env := 0, spawned := [] }

/-- The text `word` occurs in the text `text`. -/
def mentions (text word : String) : Bool :=
  decide (word.data <:+: text.data)

/-- A host decoding every `find` payload to the type "f" alone, all else as `quietHost`. -/
def findTypeOnly : Host Nat :=
  { quietHost with unmarshalFind := fun _ => .ok { Typ := "f" } }

/-- A host decoding every `ps` payload to the user "root" alone, all else as `quietHost`. -/
def psUserRoot : Host Nat :=
  { quietHost with unmarshalPs := fun _ => .ok { User := "root" } }

/-- A host decoding every `ss` payload to the port 8080 alone, every command ending with
the given output and error. -/
def ssPort8080 (output : String) (err : Option CmdError) : Host Nat :=
  { endingHost output err with unmarshalSs := fun _ => .ok { Port := 8080 } }

/-- A host decoding every `grep` payload to the pattern "needle" in the given `file`,
every `wget` payload to the URL "http://example.org/a", every `lsof` payload to the port
8080, every command ending with the given output and error. -/
def searchHost (file output : String) (err : Option CmdError) : Host Nat :=
  { endingHost output err with
    unmarshalGrep := fun _ => .ok { Pattern := "needle", File := file },
    unmarshalWget := fun _ => .ok { URL := "http://example.org/a" },
    unmarshalLsof := fun _ => .ok { Port := 8080 } }

/-- The loop with the default configuration, a model client whose transport fails on
every request, and silent executors. -/
def failingModelEnv : Env Nat :=
  { sampleEnv with ChatCompletion := fun _ n => (.error "connection refused", n + 1) }

/-- A state about to call the model, with the system prompt and one user message. -/
def awaitingModel (lines : List String) : State Nat :=
  { control := .awaitingModelResponse,
    histManager := { Messages := [{ Role := "system", Content := some "prompt" },
                                  { Role := "user", Content := some "list files" }] },
    scanner := NewScanner lines,
    world := world0 }

/-- A state at the user prompt, with the given lines still to read. -/
def awaitingUser (lines : List String) : State Nat :=
  { control := .awaitingUserInput,
    histManager := { Messages := [{ Role := "system", Content := some "prompt" }] },
    scanner := NewScanner lines,
    world := world0 }

/-- The loop with `find` on the deny list, all else as `sampleEnv`. -/
def denyFindEnv : Env Nat :=
  { sampleEnv with cfg := { sampleConfig with DeniedTools := ["find"] } }

/-- A host decoding every `lsof` payload to the given port alone, all else as `quietHost`. -/
def lsofPortOnly (port : Int) : Host Nat :=
  { quietHost with unmarshalLsof := fun _ => .ok { Port := port } }

/-- Surroundings of the dispatcher on a platform where no command has been run and no call
has been made. -/
def platformWorld0 : World (Shell Nat) :=
  { env := shell0, trace := [] }

/-- A line of 65536 letters "a": with its line feed it is one byte more than the buffer
of the scanner may hold. -/
def longLine : String :=
  ⟨List.replicate MaxScanTokenSize (Char.ofNat 97)⟩

/-! ## Theorems: security policy and dispatch -/

/-- C1. Deny always wins: a tool name on the deny list makes ExecuteTool return the
blacklist error with an empty observation, the surroundings and the call trace untouched
(no executor is invoked), whatever the allow list holds. -/
theorem ExecuteTool_deny_wins {W : Type} (ex : Executors W) (toolCall : ToolCall)
    (allow deny : List String) (w : World W) (h : toolCall.Function.Name ∈ deny) :
    ExecuteTool ex toolCall allow deny w =
      (("", some ("tool '" ++ toolCall.Function.Name ++ "' is in the configured blacklist")), w) := by
  simp [ExecuteTool, policyError, h]

theorem ExecuteTool_deny_wins_witness :
    (mkCall "c1" "ps" "").Function.Name ∈ ["ps"] ∧
    ExecuteTool echoExecutors (mkCall "c1" "ps" "") ["ps"] ["ps"] world0 =
      (("", some "tool 'ps' is in the configured blacklist"), world0) :=
  ⟨by decide, ExecuteTool_deny_wins echoExecutors (mkCall "c1" "ps" "") ["ps"] ["ps"] world0
    (by decide)⟩

/-- C2. An empty allow list is no restriction: with `allow = []` and the name not on the
deny list the policy reports no error, and ExecuteTool is exactly the dispatch on the
name. -/
theorem ExecuteTool_empty_allow {W : Type} (ex : Executors W) (toolCall : ToolCall)
    (deny : List String) (w : World W) (h : toolCall.Function.Name ∉ deny) :
    policyError toolCall.Function.Name [] deny = none ∧
    ExecuteTool ex toolCall [] deny w = routeTool ex toolCall w := by
  simp [ExecuteTool, policyError, h]

theorem ExecuteTool_empty_allow_witness :
    (mkCall "c1" "rm" "").Function.Name ∉ ([] : List String) ∧
    policyError (mkCall "c1" "rm" "").Function.Name [] [] = none ∧
    ExecuteTool echoExecutors (mkCall "c1" "rm" "") [] [] world0 =
      routeTool echoExecutors (mkCall "c1" "rm" "") world0 :=
  ⟨by decide, ExecuteTool_empty_allow echoExecutors (mkCall "c1" "rm" "") [] world0 (by decide)⟩

/-- C3. Whitelist denial: with a non-empty allow list that does not hold the name, and the
name not on the deny list, ExecuteTool returns the not-in-whitelist error with an empty
observation, the surroundings and the call trace untouched (no executor is reached). -/
theorem ExecuteTool_not_in_whitelist {W : Type} (ex : Executors W) (toolCall : ToolCall)
    (allow deny : List String) (w : World W) (hne : allow ≠ [])
    (ha : toolCall.Function.Name ∉ allow) (hd : toolCall.Function.Name ∉ deny) :
    ExecuteTool ex toolCall allow deny w =
      (("", some ("tool '" ++ toolCall.Function.Name ++
        "' is not in the configured whitelist")), w) := by
  have hpos : 0 < allow.length := List.length_pos.mpr hne
  simp [ExecuteTool, policyError, ha, hd, hpos]

theorem ExecuteTool_not_in_whitelist_witness :
    (["ps", "find"] : List String) ≠ [] ∧
    (mkCall "c1" "wget" "").Function.Name ∉ ["ps", "find"] ∧
    (mkCall "c1" "wget" "").Function.Name ∉ ([] : List String) ∧
    ExecuteTool echoExecutors (mkCall "c1" "wget" "") ["ps", "find"] [] world0 =
      (("", some "tool 'wget' is not in the configured whitelist"), world0) :=
  ⟨by decide, by decide, by decide,
    ExecuteTool_not_in_whitelist echoExecutors (mkCall "c1" "wget" "") ["ps", "find"] []
      world0 (by decide) (by decide) (by decide)⟩

theorem policyError_none_iff (t : String) (allow deny : List String) :
    policyError t allow deny = none ↔ t ∉ deny ∧ (allow = [] ∨ t ∈ allow) := by
  unfold policyError
  by_cases hd : t ∈ deny
  · simp [hd]
  · cases allow with
    | nil => simp [hd]
    | cons a l =>
      by_cases ha : t ∈ a :: l
      · simp [hd, ha]
      · simp [hd, ha]

theorem ExecuteTool_allowed {W : Type} (ex : Executors W) (toolCall : ToolCall)
    (allow deny : List String) (w : World W) (hd : toolCall.Function.Name ∉ deny)
    (ha : allow = [] ∨ toolCall.Function.Name ∈ allow) :
    ExecuteTool ex toolCall allow deny w = routeTool ex toolCall w := by
  have h := (policyError_none_iff toolCall.Function.Name allow deny).mpr ⟨hd, ha⟩
  simp [ExecuteTool, h]

theorem invoke_ne {W : Type} (name : String) (run : Executor W) (toolCall : ToolCall)
    (w : World W) (r : Result) : invoke name run toolCall w ≠ (r, w) := by
  intro h
  have ht := congrArg (fun x => x.2.trace.length) h
  simp [invoke] at ht

/-- C4. Unknown tool: for a tool call the policy lets through, ExecuteTool returns
"unknown tool: <name>" with the surroundings and the call trace untouched exactly when
the name is not a name of the catalog of GetToolDefinitions; for a name of the catalog
there is exactly one executor of that name, ExecuteTool returns what that executor
returns for the call on the surroundings, leaves the surroundings as that executor left
them, and the call trace gains that one executor call: "ps" runs executePs, "find"
executeFind, "grep" executeGrep, "wget" executeWget, "ss" executeSs, "lsof" executeLsof. -/
theorem ExecuteTool_unknown_iff {W : Type} (ex : Executors W) (toolCall : ToolCall)
    (allow deny : List String) (w : World W) (hd : toolCall.Function.Name ∉ deny)
    (ha : allow = [] ∨ toolCall.Function.Name ∈ allow) :
    (ExecuteTool ex toolCall allow deny w =
        (("", some ("unknown tool: " ++ toolCall.Function.Name)), w) ↔
      toolCall.Function.Name ∉ GetToolDefinitions.map (fun t => t.Function.Name)) ∧
    (toolCall.Function.Name ∈ GetToolDefinitions.map (fun t => t.Function.Name) →
      ∃ run, (toolCall.Function.Name, run) ∈ ex.named ∧
        (∀ other, (toolCall.Function.Name, other) ∈ ex.named → other = run) ∧
        ExecuteTool ex toolCall allow deny w =
          ((run toolCall w.env).1,
            { env := (run toolCall w.env).2,
              trace := w.trace ++ [Event.exec toolCall.Function.Name toolCall] })) ∧
    (toolCall.Function.Name = "ps" →
      ExecuteTool ex toolCall allow deny w =
        ((ex.executePs toolCall w.env).1,
          { env := (ex.executePs toolCall w.env).2,
            trace := w.trace ++ [Event.exec "ps" toolCall] })) ∧
    (toolCall.Function.Name = "find" →
      ExecuteTool ex toolCall allow deny w =
        ((ex.executeFind toolCall w.env).1,
          { env := (ex.executeFind toolCall w.env).2,
            trace := w.trace ++ [Event.exec "find" toolCall] })) ∧
    (toolCall.Function.Name = "grep" →
      ExecuteTool ex toolCall allow deny w =
        ((ex.executeGrep toolCall w.env).1,
          { env := (ex.executeGrep toolCall w.env).2,
            trace := w.trace ++ [Event.exec "grep" toolCall] })) ∧
    (toolCall.Function.Name = "wget" →
      ExecuteTool ex toolCall allow deny w =
        ((ex.executeWget toolCall w.env).1,
          { env := (ex.executeWget toolCall w.env).2,
            trace := w.trace ++ [Event.exec "wget" toolCall] })) ∧
    (toolCall.Function.Name = "ss" →
      ExecuteTool ex toolCall allow deny w =
        ((ex.executeSs toolCall w.env).1,
          { env := (ex.executeSs toolCall w.env).2,
            trace := w.trace ++ [Event.exec "ss" toolCall] })) ∧
    (toolCall.Function.Name = "lsof" →
      ExecuteTool ex toolCall allow deny w =
        ((ex.executeLsof toolCall w.env).1,
          { env := (ex.executeLsof toolCall w.env).2,
            trace := w.trace ++ [Event.exec "lsof" toolCall] })) := by
  rw [ExecuteTool_allowed ex toolCall allow deny w hd ha]
  have hcat : GetToolDefinitions.map (fun t => t.Function.Name) =
      ["ps", "find", "grep", "wget", "ss", "lsof"] := rfl
  rw [hcat]
  generalize hn : toolCall.Function.Name = name
  unfold routeTool
  rw [hn]
  by_cases h1 : name = "ps"
  · subst h1
    refine ⟨⟨fun h => absurd h (by simpa using invoke_ne _ _ _ _ _), fun h => absurd h (by simp)⟩,
      fun _ => ⟨ex.executePs, by simp [Executors.named], ?_, by simp [invoke]⟩, ?_⟩
    · intro other ho
      simpa [Executors.named] using ho
    · simp [invoke]
  by_cases h2 : name = "find"
  · subst h2
    refine ⟨⟨fun h => absurd h (by simpa using invoke_ne _ _ _ _ _), fun h => absurd h (by simp)⟩,
      fun _ => ⟨ex.executeFind, by simp [Executors.named], ?_, by simp [invoke]⟩, ?_⟩
    · intro other ho
      simpa [Executors.named] using ho
    · simp [invoke]
  by_cases h3 : name = "grep"
  · subst h3
    refine ⟨⟨fun h => absurd h (by simpa using invoke_ne _ _ _ _ _), fun h => absurd h (by simp)⟩,
      fun _ => ⟨ex.executeGrep, by simp [Executors.named], ?_, by simp [invoke]⟩, ?_⟩
    · intro other ho
      simpa [Executors.named] using ho
    · simp [invoke]
  by_cases h4 : name = "wget"
  · subst h4
    refine ⟨⟨fun h => absurd h (by simpa using invoke_ne _ _ _ _ _), fun h => absurd h (by simp)⟩,
      fun _ => ⟨ex.executeWget, by simp [Executors.named], ?_, by simp [invoke]⟩, ?_⟩
    · intro other ho
      simpa [Executors.named] using ho
    · simp [invoke]
  by_cases h5 : name = "ss"
  · subst h5
    refine ⟨⟨fun h => absurd h (by simpa using invoke_ne _ _ _ _ _), fun h => absurd h (by simp)⟩,
      fun _ => ⟨ex.executeSs, by simp [Executors.named], ?_, by simp [invoke]⟩, ?_⟩
    · intro other ho
      simpa [Executors.named] using ho
    · simp [invoke]
  by_cases h6 : name = "lsof"
  · subst h6
    refine ⟨⟨fun h => absurd h (by simpa using invoke_ne _ _ _ _ _), fun h => absurd h (by simp)⟩,
      fun _ => ⟨ex.executeLsof, by simp [Executors.named], ?_, by simp [invoke]⟩, ?_⟩
    · intro other ho
      simpa [Executors.named] using ho
    · simp [invoke]
  · have hnot : name ∉ ["ps", "find", "grep", "wget", "ss", "lsof"] := by
      simp [h1, h2, h3, h4, h5, h6]
    refine ⟨⟨fun _ => hnot, fun _ => ?_⟩, fun hm => absurd hm hnot, ?_⟩
    · simp only [h1, h2, h3, h4, h5, h6, if_false]
    · simp [h1, h2, h3, h4, h5, h6]

theorem ExecuteTool_unknown_iff_witness :
    (mkCall "c1" "grep" "x").Function.Name ∉ ["wget"] ∧
    (([] : List String) = [] ∨ (mkCall "c1" "grep" "x").Function.Name ∈ ([] : List String)) ∧
    (mkCall "c1" "grep" "x").Function.Name = "grep" ∧
    ExecuteTool echoExecutors (mkCall "c1" "grep" "x") [] ["wget"] world0 =
      (("grep:x", none),
        { env := 1, trace := [Event.exec "grep" (mkCall "c1" "grep" "x")] }) ∧
    (mkCall "c2" "rm" "-rf").Function.Name ∉ ["wget"] ∧
    (mkCall "c2" "rm" "-rf").Function.Name ∉
      GetToolDefinitions.map (fun t => t.Function.Name) ∧
    ExecuteTool echoExecutors (mkCall "c2" "rm" "-rf") [] ["wget"] world0 =
      (("", some "unknown tool: rm"), world0) :=
  ⟨by decide, Or.inl rfl, rfl,
    (ExecuteTool_unknown_iff echoExecutors (mkCall "c1" "grep" "x") [] ["wget"] world0
      (by decide) (Or.inl rfl)).2.2.2.2.1 rfl,
    by decide, by decide,
    (ExecuteTool_unknown_iff echoExecutors (mkCall "c2" "rm" "-rf") [] ["wget"] world0
      (by decide) (Or.inl rfl)).1.mpr (by decide)⟩

/-! ## Theorems: conversation state -/

/-- C8. AddAssistantMessage forces the role: whatever role the message carries, the last
message of the history afterwards has role "assistant" and the content, tool calls and
tool-call id of the argument. -/
theorem AddAssistantMessage_forces_role (h : HistoryManager) (m : Message) :
    (h.AddAssistantMessage m).GetHistory.getLast? =
      some { Role := "assistant", Content := m.Content, ToolCalls := m.ToolCalls,
             ToolCallID := m.ToolCallID } := by
  simp [HistoryManager.AddAssistantMessage, HistoryManager.GetHistory]

/-- C9. The conversation state is append-only: each of the four operations makes the
history one message longer, keeps the old history as a prefix of the new one, and so
keeps every old message at its index. -/
theorem history_append_only (h : HistoryManager) (content toolCallID : String) (m : Message) :
    ExtendsByOne h.GetHistory (h.AddSystemMessage content).GetHistory ∧
    ExtendsByOne h.GetHistory (h.AddUserMessage content).GetHistory ∧
    ExtendsByOne h.GetHistory (h.AddAssistantMessage m).GetHistory ∧
    ExtendsByOne h.GetHistory (h.AddToolObservation toolCallID content).GetHistory := by
  have key : ∀ x : Message, ExtendsByOne h.GetHistory (h.GetHistory ++ [x]) := by
    intro x
    refine ⟨by simp, List.prefix_append _ _, ?_⟩
    intro i hi
    exact List.getElem?_append_left hi
  exact ⟨key _, key _, key _, key _⟩

/-! ## Theorems: the agent loop -/

theorem dispatches_append (a b : List Event) :
    dispatches (a ++ b) = dispatches a ++ dispatches b := by
  induction a with
  | nil => rfl
  | cons e a ih => cases e <;> simp [dispatches, ih]

theorem routeTool_dispatches {W : Type} (ex : Executors W) (toolCall : ToolCall)
    (w : World W) : dispatches (routeTool ex toolCall w).2.trace = dispatches w.trace := by
  unfold routeTool
  simp only []
  repeat' split
  all_goals simp [invoke, dispatches_append, dispatches]

theorem ExecuteTool_dispatches {W : Type} (ex : Executors W) (toolCall : ToolCall)
    (allow deny : List String) (w : World W) :
    dispatches (ExecuteTool ex toolCall allow deny w).2.trace = dispatches w.trace := by
  unfold ExecuteTool
  split
  · rfl
  · exact routeTool_dispatches ex toolCall w

theorem observe_declined {W : Type} (env : Env W) (toolCall : ToolCall) (line : String)
    (w : World W)
    (h : ToLower env.caseTable (TrimSpace line) = "n" ∨
      ToLower env.caseTable (TrimSpace line) = "no") :
    observe env toolCall line w = ("User cancelled the execution of this tool.", w) := by
  unfold observe
  simp only [h, if_true]
  rfl

theorem observe_approved_world {W : Type} (env : Env W) (toolCall : ToolCall)
    (line : String) (w : World W)
    (h : ¬ (ToLower env.caseTable (TrimSpace line) = "n" ∨
      ToLower env.caseTable (TrimSpace line) = "no")) :
    (observe env toolCall line w).2 =
      (ExecuteTool env.executors toolCall env.cfg.AllowedTools env.cfg.DeniedTools
        (w.record (Event.dispatch toolCall))).2 := by
  unfold observe
  simp only [h, if_false]
  split <;> rfl

theorem placeholder_ne_empty (x : String) :
    (if x = "" then "(No output)" else x) ≠ "" := by
  split
  · decide
  · assumption

theorem observe_ne_empty {W : Type} (env : Env W) (toolCall : ToolCall) (line : String)
    (w : World W) : (observe env toolCall line w).1 ≠ "" := by
  unfold observe
  exact placeholder_ne_empty _

theorem step_confirming {W : Type} (env : Env W) (s : State W) (toolCall : ToolCall)
    (pending : List ToolCall) (line : String) (rest : Scanner)
    (hc : s.control = .confirmingTool (toolCall :: pending))
    (hs : s.scanner.Scan = (some line, rest)) :
    step env s =
      { control := .confirmingTool pending,
        histManager :=
          s.histManager.AddToolObservation toolCall.ID (observe env toolCall line s.world).1,
        scanner := rest,
        world := (observe env toolCall line s.world).2 } := by
  simp [step, hc, stepTool, hs]

/-- C5. Confirmation gate: at the confirmation prompt for a tool call, with the line `r`
read from the user (Scan hands out `r`), ExecuteTool is called for that call exactly when the trimmed,
lower-cased `r` is neither "n" nor "no"; then it is called with the configured allow and
deny lists. When `r` declines, nothing outside the history changes and the tool message
recorded for the call holds exactly the cancellation sentence. An empty line approves. -/
theorem confirmation_gate {W : Type} (env : Env W) (s : State W) (toolCall : ToolCall)
    (pending : List ToolCall) (r : String) (rest : Scanner)
    (hc : s.control = .confirmingTool (toolCall :: pending))
    (hs : s.scanner.Scan = (some r, rest)) :
    (dispatches (step env s).world.trace = dispatches s.world.trace ++ [toolCall] ↔
      ¬ (ToLower env.caseTable (TrimSpace r) = "n" ∨
        ToLower env.caseTable (TrimSpace r) = "no")) ∧
    (¬ (ToLower env.caseTable (TrimSpace r) = "n" ∨
        ToLower env.caseTable (TrimSpace r) = "no") →
      (step env s).world =
        (ExecuteTool env.executors toolCall env.cfg.AllowedTools env.cfg.DeniedTools
          (s.world.record (Event.dispatch toolCall))).2) ∧
    ((ToLower env.caseTable (TrimSpace r) = "n" ∨
        ToLower env.caseTable (TrimSpace r) = "no") →
      (step env s).world = s.world ∧
      (step env s).histManager.GetHistory = s.histManager.GetHistory ++
        [{ Role := "tool", ToolCallID := toolCall.ID,
           Content := some "User cancelled the execution of this tool." }]) ∧
    (r = "" → dispatches (step env s).world.trace = dispatches s.world.trace ++ [toolCall]) := by
  rw [step_confirming env s toolCall pending r rest hc hs]
  have approved : ¬ (ToLower env.caseTable (TrimSpace r) = "n" ∨
        ToLower env.caseTable (TrimSpace r) = "no") →
      dispatches (observe env toolCall r s.world).2.trace =
        dispatches s.world.trace ++ [toolCall] := by
    intro h
    rw [observe_approved_world env toolCall r s.world h, ExecuteTool_dispatches]
    simp [World.record, dispatches_append, dispatches]
  refine ⟨⟨?_, approved⟩, ?_, ?_, ?_⟩
  · intro hd hdecl
    simp only [observe_declined env toolCall r s.world hdecl] at hd
    have hl := congrArg List.length hd
    simp at hl
  · intro h
    exact observe_approved_world env toolCall r s.world h
  · intro h
    simp [observe_declined env toolCall r s.world h, HistoryManager.AddToolObservation,
      HistoryManager.GetHistory]
  · intro hr
    subst hr
    apply approved
    have : ToLower env.caseTable (TrimSpace "") = "" := by
      simp [ToLower, TrimSpace]
    rw [this]
    decide

theorem confirmation_gate_witness :
    (confirming [" No ", "y"]).control = .confirmingTool [findCall] ∧
    (confirming [" No ", "y"]).scanner.Scan = (some " No ", NewScanner ["y"]) ∧
    ToLower sampleEnv.caseTable (TrimSpace " No ") = "no" ∧
    dispatches (step sampleEnv (confirming [" No ", "y"])).world.trace = [] ∧
    (step sampleEnv (confirming [" No ", "y"])).histManager.GetHistory =
      (confirming [" No ", "y"]).histManager.GetHistory ++
        [{ Role := "tool", ToolCallID := "call_1",
           Content := some "User cancelled the execution of this tool." }] :=
  ⟨rfl, by decide, by decide, by decide,
    ((confirmation_gate sampleEnv (confirming [" No ", "y"]) findCall [] " No "
      (NewScanner ["y"]) rfl (by decide)).2.2.1 (Or.inr (by decide))).2⟩

theorem stepUserInput_appends {W : Type} (env : Env W) (s : State W) :
    ∃ added, (stepUserInput env s).histManager.Messages = s.histManager.Messages ++ added ∧
      ∀ m ∈ added, Appended m := by
  unfold stepUserInput
  simp only []
  split
  · exact ⟨[], by simp, by simp⟩
  · split
    · exact ⟨[], by simp, by simp⟩
    · split
      · exact ⟨[], by simp, by simp⟩
      · exact ⟨[_], rfl, by simp [Appended]⟩

theorem stepModel_appends {W : Type} (env : Env W) (s : State W) :
    ∃ added, (stepModel env s).histManager.Messages = s.histManager.Messages ++ added ∧
      ∀ m ∈ added, Appended m := by
  unfold stepModel
  simp only []
  split
  · exact ⟨[], by simp, by simp⟩
  · split
    · exact ⟨[], by simp, by simp⟩
    · split
      · exact ⟨[_], rfl, by simp [Appended]⟩
      · exact ⟨[_], rfl, by simp [Appended]⟩

theorem stepTool_appends {W : Type} (env : Env W) (pending : List ToolCall) (s : State W) :
    ∃ added, (stepTool env pending s).histManager.Messages = s.histManager.Messages ++ added ∧
      ∀ m ∈ added, Appended m := by
  unfold stepTool
  split
  · exact ⟨[], by simp, by simp⟩
  · simp only []
    split
    · exact ⟨[], by simp, by simp⟩
    · refine ⟨[_], rfl, ?_⟩
      intro m hm
      rw [List.mem_singleton] at hm
      subst hm
      exact Or.inr (Or.inr ⟨rfl, _, rfl, observe_ne_empty _ _ _ _⟩)

theorem step_appends {W : Type} (env : Env W) (s : State W) :
    ∃ added, (step env s).histManager.Messages = s.histManager.Messages ++ added ∧
      ∀ m ∈ added, Appended m := by
  unfold step
  split
  · exact stepUserInput_appends env s
  · exact stepModel_appends env s
  · exact stepTool_appends env _ s
  · exact ⟨[], by simp, by simp⟩

theorem run_appends {W : Type} (env : Env W) (n : Nat) (s : State W) :
    ∃ added, (run env n s).histManager.Messages = s.histManager.Messages ++ added ∧
      ∀ m ∈ added, Appended m := by
  induction n generalizing s with
  | zero => exact ⟨[], by simp [run], by simp⟩
  | succ n ih =>
    obtain ⟨a, ha, hA⟩ := step_appends env s
    obtain ⟨b, hb, hB⟩ := ih (step env s)
    refine ⟨a ++ b, ?_, ?_⟩
    · simp only [run]
      rw [hb, ha, List.append_assoc]
    · intro m hm
      rcases List.mem_append.mp hm with h | h
      · exact hA m h
      · exact hB m h

theorem mainAfter_history {W : Type} (env : Env W) (stdin : List String) (w : W) (n : Nat) :
    ∃ added, (mainAfter env stdin w n).histManager.GetHistory =
        { Role := "system", Content := some systemPrompt } :: added ∧
      ∀ m ∈ added, Appended m := by
  obtain ⟨a, ha, hA⟩ := run_appends env n (initial stdin w)
  exact ⟨a, by simpa [mainAfter, HistoryManager.GetHistory, initial, NewHistoryManager,
    HistoryManager.AddSystemMessage] using ha, hA⟩

theorem Appended_not_system (m : Message) (h : Appended m) : m.Role ≠ "system" := by
  rcases h with h | h | ⟨h, _⟩ <;> rw [h] <;> decide

/-- C6. An observation is never empty: after any number of steps of the loop, on any
input, model and executors, every message of role "tool" in the conversation has
non-empty content; the text recorded for a tool call is never empty; and when the line
approves and the dispatcher returns an empty observation without error, the tool message
added to the history for the call holds the placeholder "(No output)". -/
theorem observation_never_empty {W : Type} (env : Env W) (stdin : List String) (w : W)
    (n : Nat) :
    (∀ m ∈ (mainAfter env stdin w n).histManager.GetHistory,
      m.Role = "tool" → ∃ c, m.Content = some c ∧ c ≠ "") ∧
    (∀ (toolCall : ToolCall) (line : String) (world : World W),
      (observe env toolCall line world).1 ≠ "") ∧
    (∀ (s : State W) (toolCall : ToolCall) (pending : List ToolCall) (line : String)
        (rest : Scanner),
      s.control = .confirmingTool (toolCall :: pending) →
      s.scanner.Scan = (some line, rest) →
      ¬ (ToLower env.caseTable (TrimSpace line) = "n" ∨
        ToLower env.caseTable (TrimSpace line) = "no") →
      (ExecuteTool env.executors toolCall env.cfg.AllowedTools env.cfg.DeniedTools
        (s.world.record (Event.dispatch toolCall))).1 = ("", none) →
      (step env s).histManager.GetHistory = s.histManager.GetHistory ++
        [{ Role := "tool", ToolCallID := toolCall.ID, Content := some "(No output)" }]) := by
  refine ⟨?_, fun toolCall line world => observe_ne_empty env toolCall line world, ?_⟩
  · obtain ⟨added, hh, hA⟩ := mainAfter_history env stdin w n
    intro m hm hrole
    rw [hh] at hm
    rcases List.mem_cons.mp hm with h | h
    · subst h
      exact absurd hrole (by decide)
    · rcases hA m h with h1 | h1 | ⟨_, h1⟩
      · rw [h1] at hrole
        exact absurd hrole (by decide)
      · rw [h1] at hrole
        exact absurd hrole (by decide)
      · exact h1
  · intro s toolCall pending line rest hc hs happ hres
    rw [step_confirming env s toolCall pending line rest hc hs]
    have hobs : (observe env toolCall line s.world).1 = "(No output)" := by
      unfold observe
      simp only [happ, if_false, hres]
      rfl
    simp [hobs, HistoryManager.AddToolObservation, HistoryManager.GetHistory]

theorem observation_never_empty_witness :
    (confirming ["", "y"]).control = .confirmingTool [findCall] ∧
    (confirming ["", "y"]).scanner.Scan = (some "", NewScanner ["y"]) ∧
    ¬ (ToLower sampleEnv.caseTable (TrimSpace "") = "n" ∨
      ToLower sampleEnv.caseTable (TrimSpace "") = "no") ∧
    (ExecuteTool sampleEnv.executors findCall sampleEnv.cfg.AllowedTools
      sampleEnv.cfg.DeniedTools
      ((confirming ["", "y"]).world.record (Event.dispatch findCall))).1 = ("", none) ∧
    (step sampleEnv (confirming ["", "y"])).histManager.GetHistory =
      (confirming ["", "y"]).histManager.GetHistory ++
        [{ Role := "tool", ToolCallID := "call_1", Content := some "(No output)" }] :=
  ⟨rfl, by decide, by decide, by decide,
    (observation_never_empty sampleEnv [] 0 0).2.2 (confirming ["", "y"]) findCall [] ""
      (NewScanner ["y"]) rfl (by decide) (by decide) (by decide)⟩

/-- C10. Exactly one system message: after any number of steps of the loop, for every
input, every model client (whatever role its messages carry) and all executors, the
conversation holds exactly one message of role "system", and it is the first message,
the system prompt. -/
theorem exactly_one_system_message {W : Type} (env : Env W) (stdin : List String) (w : W)
    (n : Nat) :
    ((mainAfter env stdin w n).histManager.GetHistory.filter
        (fun m => decide (m.Role = "system"))).length = 1 ∧
    (mainAfter env stdin w n).histManager.GetHistory.head? =
      some { Role := "system", Content := some systemPrompt } := by
  obtain ⟨added, hh, hA⟩ := mainAfter_history env stdin w n
  rw [hh]
  refine ⟨?_, rfl⟩
  have hnone : added.filter (fun m => decide (m.Role = "system")) = [] := by
    rw [List.filter_eq_nil_iff]
    intro m hm
    simpa using Appended_not_system m (hA m hm)
  rw [List.filter_cons_of_pos (by decide), hnone]
  rfl

/-- C7, evaluated where it fails. The input is the single line "list files" and the
model asks for one `find` call: the confirmation prompt meets the end of the input, the
tool loop is left without a tool message, and the model is called a second time with the
conversation system, user, assistant, in which the tool call "call_1" of the assistant
message has no tool message. -/
theorem pairing_broken_at_end_of_input :
    (chats (mainAfter sampleEnv ["list files"] 0 4).world.trace).map
        (fun request => (request.Messages.map (fun m => (m.Role, m.ToolCalls.map
          (fun c => c.ID), m.ToolCallID)), Paired request.Messages)) =
      [([("system", [], ""), ("user", [], "")], true),
       ([("system", [], ""), ("user", [], ""), ("assistant", ["call_1"], "")], false)] := by
  decide

/-! ## The pairing holds as long as every confirmation prompt is answered -/

theorem answersFollow_append (ids : List String) (l suffix : List Message)
    (h : answersFollow ids l = true) (hs : ∀ m, suffix.head? = some m → m.Role ≠ "tool") :
    answersFollow ids (l ++ suffix) = true := by
  induction ids generalizing l with
  | nil =>
    cases l with
    | nil =>
      cases suffix with
      | nil => rfl
      | cons m t => simpa [answersFollow] using hs m rfl
    | cons m l => simpa [answersFollow] using h
  | cons id ids ih =>
    cases l with
    | nil => simp [answersFollow] at h
    | cons m l =>
      simp only [answersFollow, Bool.and_eq_true] at h
      simp only [List.cons_append, answersFollow, Bool.and_eq_true]
      exact ⟨h.1, ih l h.2⟩

theorem Paired_append (l suffix : List Message) (h : Paired l = true)
    (hp : Paired suffix = true) (hs : ∀ m, suffix.head? = some m → m.Role ≠ "tool") :
    Paired (l ++ suffix) = true := by
  induction l with
  | nil => simpa using hp
  | cons m l ih =>
    simp only [Paired, Bool.and_eq_true] at h
    simp only [List.cons_append, Paired, Bool.and_eq_true]
    refine ⟨?_, ih h.2⟩
    have h1 := h.1
    split at h1
    · rw [if_pos (by assumption)]
      exact answersFollow_append _ _ _ h1 hs
    · rw [if_neg (by assumption)]

theorem Paired_of_tool (ans : List Message) (h : ∀ m ∈ ans, m.Role = "tool") :
    Paired ans = true := by
  induction ans with
  | nil => rfl
  | cons m ans ih =>
    have hm : m.Role = "tool" := h m (List.mem_cons_self _ _)
    have hne : ¬ (m.Role = "assistant" ∧ m.ToolCalls ≠ []) := by
      rw [hm]
      intro hc
      exact absurd hc.1 (by decide)
    simp only [Paired, if_neg hne, Bool.true_and]
    exact ih fun x hx => h x (List.mem_cons_of_mem _ hx)

theorem IsAnswers_role (done : List ToolCall) (ans : List Message) (h : IsAnswers done ans) :
    ∀ m ∈ ans, m.Role = "tool" := by
  induction done generalizing ans with
  | nil =>
    cases ans with
    | nil => simp
    | cons m ans => simp [IsAnswers] at h
  | cons c done ih =>
    cases ans with
    | nil => simp
    | cons m ans =>
      simp only [IsAnswers, List.map_cons, List.cons.injEq, Prod.mk.injEq] at h
      intro x hx
      rcases List.mem_cons.mp hx with hx | hx
      · rw [hx]
        exact h.1.1
      · exact ih ans h.2 x hx

theorem IsAnswers_follow (done : List ToolCall) (ans : List Message) (h : IsAnswers done ans) :
    answersFollow (done.map fun c => c.ID) ans = true := by
  induction done generalizing ans with
  | nil =>
    cases ans with
    | nil => rfl
    | cons m ans => simp [IsAnswers] at h
  | cons c done ih =>
    cases ans with
    | nil => simp [IsAnswers] at h
    | cons m ans =>
      simp only [IsAnswers, List.map_cons, List.cons.injEq, Prod.mk.injEq] at h
      simp only [List.map_cons, answersFollow, Bool.and_eq_true]
      exact ⟨⟨by simp [h.1.1], by simp [h.1.2]⟩, ih ans h.2⟩

theorem IsAnswers_snoc (done : List ToolCall) (ans : List Message) (c : ToolCall)
    (content : String) (h : IsAnswers done ans) :
    IsAnswers (done ++ [c])
      (ans ++ [{ Role := "tool", ToolCallID := c.ID, Content := some content }]) := by
  simp only [IsAnswers] at h
  simp [IsAnswers, h]

theorem Paired_closed (pre ans : List Message) (m : Message) (hp : Paired pre = true)
    (hr : m.Role = "assistant") (ha : IsAnswers m.ToolCalls ans) :
    Paired (pre ++ m :: ans) = true := by
  apply Paired_append pre (m :: ans) hp
  · simp only [Paired, Bool.and_eq_true]
    refine ⟨?_, Paired_of_tool ans (IsAnswers_role _ _ ha)⟩
    split
    · exact IsAnswers_follow _ _ ha
    · rfl
  · intro x hx
    simp only [List.head?_cons, Option.some.injEq] at hx
    rw [← hx, hr]
    decide

theorem Paired_snoc (l : List Message) (m : Message) (h : Paired l = true)
    (ht : m.Role ≠ "tool") (hc : ¬ (m.Role = "assistant" ∧ m.ToolCalls ≠ [])) :
    Paired (l ++ [m]) = true := by
  apply Paired_append l [m] h
  · simp [Paired, hc]
  · intro x hx
    simp only [List.head?_cons, Option.some.injEq] at hx
    rw [← hx]
    exact ht

theorem chats_append (a b : List Event) : chats (a ++ b) = chats a ++ chats b := by
  induction a with
  | nil => rfl
  | cons e a ih => cases e <;> simp [chats, ih]

theorem routeTool_chats {W : Type} (ex : Executors W) (toolCall : ToolCall) (w : World W) :
    chats (routeTool ex toolCall w).2.trace = chats w.trace := by
  unfold routeTool
  simp only []
  repeat' split
  all_goals simp [invoke, chats_append, chats]

theorem ExecuteTool_chats {W : Type} (ex : Executors W) (toolCall : ToolCall)
    (allow deny : List String) (w : World W) :
    chats (ExecuteTool ex toolCall allow deny w).2.trace = chats w.trace := by
  unfold ExecuteTool
  split
  · rfl
  · exact routeTool_chats ex toolCall w

theorem observe_chats {W : Type} (env : Env W) (toolCall : ToolCall) (line : String)
    (w : World W) : chats (observe env toolCall line w).2.trace = chats w.trace := by
  by_cases h : ToLower env.caseTable (TrimSpace line) = "n" ∨
      ToLower env.caseTable (TrimSpace line) = "no"
  · rw [observe_declined env toolCall line w h]
  · rw [observe_approved_world env toolCall line w h, ExecuteTool_chats]
    simp [World.record, chats_append, chats]

theorem stepUserInput_keeps {W : Type} (env : Env W) (s : State W)
    (hc : s.control = .awaitingUserInput) (hI : HistShape s) :
    HistShape (stepUserInput env s) ∧ (stepUserInput env s).world = s.world := by
  have hp : Paired s.histManager.Messages = true := by
    simpa [HistShape, hc] using hI
  unfold stepUserInput
  simp only []
  split
  · exact ⟨by simpa [HistShape] using hp, rfl⟩
  · split
    · exact ⟨by simpa [HistShape] using hp, rfl⟩
    · split
      · exact ⟨by simpa [HistShape, hc] using hp, rfl⟩
      · refine ⟨?_, rfl⟩
        simp only [HistShape, HistoryManager.AddUserMessage]
        exact Paired_snoc _ _ hp (by simp) (by simp)

theorem stepModel_keeps {W : Type} (env : Env W) (s : State W)
    (hc : s.control = .awaitingModelResponse) (hI : HistShape s) :
    HistShape (stepModel env s) ∧
    ∃ request : ChatRequest, request.Messages = s.histManager.Messages ∧
      (stepModel env s).world.trace = s.world.trace ++ [Event.chat request] := by
  have hp : Paired s.histManager.Messages = true := by
    simpa [HistShape, hc] using hI
  unfold stepModel
  simp only []
  split
  · exact ⟨by simpa [HistShape] using hp, _, rfl, rfl⟩
  · split
    · exact ⟨by simpa [HistShape] using hp, _, rfl, rfl⟩
    · rename_i choice _ _
      split
      · refine ⟨?_, _, rfl, rfl⟩
        simp only [HistShape, HistoryManager.AddAssistantMessage]
        exact ⟨s.histManager.Messages, { choice.Message with Role := "assistant" }, [], [],
          rfl, hp, rfl, rfl, rfl⟩
      · rename_i hlen
        refine ⟨?_, _, rfl, rfl⟩
        simp only [HistShape, HistoryManager.AddAssistantMessage]
        refine Paired_snoc _ _ hp (by simp) ?_
        intro hcalls
        apply hlen
        exact List.length_pos.mpr hcalls.2

theorem stepTool_keeps {W : Type} (env : Env W) (pending : List ToolCall) (s : State W)
    (hc : s.control = .confirmingTool pending) (hI : HistShape s)
    (he : confirmAtEnd s = false) :
    HistShape (stepTool env pending s) ∧
    chats (stepTool env pending s).world.trace = chats s.world.trace := by
  obtain ⟨pre, m, done, ans, hh, hpre, hrole, hcalls, hans⟩ :
      ∃ pre m done ans, s.histManager.Messages = pre ++ m :: ans ∧ Paired pre = true ∧
        m.Role = "assistant" ∧ m.ToolCalls = done ++ pending ∧ IsAnswers done ans := by
    simpa [HistShape, hc] using hI
  unfold stepTool
  split
  · refine ⟨?_, rfl⟩
    simp only [HistShape]
    rw [hh]
    apply Paired_closed pre ans m hpre hrole
    rw [hcalls, List.append_nil]
    exact hans
  · rename_i toolCall rest
    simp only []
    split
    · rename_i hscan
      simp [confirmAtEnd, hc, hscan] at he
    · rename_i line _
      refine ⟨?_, observe_chats _ _ _ _⟩
      simp only [HistShape, HistoryManager.AddToolObservation]
      refine ⟨pre, m, done ++ [toolCall],
        ans ++ [{ Role := "tool", ToolCallID := toolCall.ID,
                  Content := some (observe env toolCall line s.world).1 }],
        ?_, hpre, hrole, ?_,
        IsAnswers_snoc done ans toolCall (observe env toolCall line s.world).1 hans⟩
      · rw [hh]
        simp
      · rw [hcalls]
        simp

theorem step_keeps_pairing {W : Type} (env : Env W) (s : State W) (hI : HistShape s)
    (hc : ∀ request ∈ chats s.world.trace, Paired request.Messages = true)
    (he : confirmAtEnd s = false) :
    HistShape (step env s) ∧
    ∀ request ∈ chats (step env s).world.trace, Paired request.Messages = true := by
  unfold step
  split
  · rename_i hctl
    obtain ⟨h1, h2⟩ := stepUserInput_keeps env s hctl hI
    exact ⟨h1, by rw [h2]; exact hc⟩
  · rename_i hctl
    obtain ⟨h1, request, hm, ht⟩ := stepModel_keeps env s hctl hI
    refine ⟨h1, ?_⟩
    rw [ht, chats_append]
    intro r hr
    rcases List.mem_append.mp hr with hr | hr
    · exact hc r hr
    · simp only [chats, List.mem_singleton] at hr
      rw [hr, hm]
      simpa [HistShape, hctl] using hI
  · rename_i pending hctl
    obtain ⟨h1, h2⟩ := stepTool_keeps env pending s hctl hI he
    exact ⟨h1, by rw [h2]; exact hc⟩
  · exact ⟨hI, hc⟩

theorem run_succ_eq {W : Type} (env : Env W) (n : Nat) (s : State W) :
    run env (n + 1) s = step env (run env n s) := by
  induction n generalizing s with
  | zero => rfl
  | succ n ih =>
    show run env (n + 1) (step env s) = step env (run env (n + 1) s)
    rw [ih (step env s)]
    rfl

/-- Tool-message pairing away from the end of the input: as long as no confirmation
prompt of the first `n` steps finds the input ended, every request the loop has sent to
the model after `n` steps carries a conversation in which each assistant message with
tool calls is followed at once by one tool message per call, ids in issue order. -/
theorem pairing_while_confirmations_are_read {W : Type} (env : Env W) (stdin : List String)
    (w : W) (n : Nat) (h : ∀ k, k < n → confirmAtEnd (mainAfter env stdin w k) = false) :
    ∀ request ∈ chats (mainAfter env stdin w n).world.trace,
      Paired request.Messages = true := by
  have key : HistShape (mainAfter env stdin w n) ∧
      ∀ request ∈ chats (mainAfter env stdin w n).world.trace,
        Paired request.Messages = true := by
    induction n with
    | zero =>
      refine ⟨?_, ?_⟩
      · simp only [mainAfter, run, HistShape, initial]
        exact Paired_snoc [] _ rfl (by decide) (by simp)
      · simp [mainAfter, run, initial, chats]
    | succ n ih =>
      obtain ⟨h1, h2⟩ := ih fun k hk => h k (Nat.lt_succ_of_lt hk)
      have hstep : mainAfter env stdin w (n + 1) = step env (mainAfter env stdin w n) :=
        run_succ_eq env n (initial stdin w)
      rw [hstep]
      exact step_keeps_pairing env _ h1 h2 (h n (Nat.lt_succ_self n))
  exact key.2

theorem pairing_while_confirmations_are_read_witness :
    (∀ k, k < 5 → confirmAtEnd (mainAfter sampleEnv ["list files", "y"] 0 k) = false) ∧
    (chats (mainAfter sampleEnv ["list files", "y"] 0 5).world.trace).length = 2 ∧
    ∀ request ∈ chats (mainAfter sampleEnv ["list files", "y"] 0 5).world.trace,
      Paired request.Messages = true :=
  ⟨by decide, by decide,
    pairing_while_confirmations_are_read sampleEnv ["list files", "y"] 0 5 (by decide)⟩

/-! ## Theorems: the platform executors -/

/-- C11, refuted as stated. On the Linux executor a `find` call with no name and the type
"f" returns no error and runs `find . -type f`. -/
theorem find_runs_without_name :
    Linux.executeFind findTypeOnly (mkCall "c1" "find" "") shell0 =
      (("", none),
        { env := 1, spawned := [{ name := "find", args := [".", "-type", "f"] }] }) := by
  decide

/-- C11, amended. For every `find` call whose decoded name and type are both empty and
whose maxdepth is not positive (any path), executeFind, on Linux and on macOS, returns the
argument error "at least one of 'name' or 'type' must be provided for find" and runs no
command: the surroundings are untouched. -/
theorem find_requires_name_or_type {P : Type} (host : Host P) (toolCall : ToolCall)
    (w : Shell P) (args : FindArgs)
    (hdec : host.unmarshalFind toolCall.Function.Arguments = .ok args)
    (hname : args.Name = "") (htype : args.Typ = "") (hdepth : args.MaxDepth ≤ 0) :
    Linux.executeFind host toolCall w =
      (("", some "at least one of 'name' or 'type' must be provided for find"), w) ∧
    Darwin.executeFind host toolCall w =
      (("", some "at least one of 'name' or 'type' must be provided for find"), w) := by
  have hd : ¬ (args.MaxDepth > 0) := not_lt.mpr hdepth
  constructor
  · unfold Linux.executeFind
    rw [hdec]
    by_cases hp : args.Path = "" <;> simp [hp, hname, htype, hd]
  · unfold Darwin.executeFind
    rw [hdec]
    by_cases hp : args.Path = "" <;> simp [hp, hname, htype, hd]

theorem find_requires_name_or_type_witness :
    quietHost.unmarshalFind (mkCall "c1" "find" "").Function.Arguments = .ok {} ∧
    ({} : FindArgs).Name = "" ∧ ({} : FindArgs).Typ = "" ∧ ({} : FindArgs).MaxDepth ≤ 0 ∧
    Linux.executeFind quietHost (mkCall "c1" "find" "") shell0 =
      (("", some "at least one of 'name' or 'type' must be provided for find"), shell0) ∧
    Darwin.executeFind quietHost (mkCall "c1" "find" "") shell0 =
      (("", some "at least one of 'name' or 'type' must be provided for find"), shell0) :=
  ⟨rfl, rfl, rfl, by decide,
    find_requires_name_or_type quietHost (mkCall "c1" "find" "") shell0 {} rfl rfl rfl
      (by decide)⟩

theorem append_ne_of_head (pre x required : String) (c d : Char)
    (hp : pre.data.head? = some c) (hr : required.data.head? = some d) (hcd : c ≠ d) :
    pre ++ x ≠ required := by
  intro heq
  have hh := congrArg (fun s => s.data.head?) heq
  simp only [String.data_append] at hh
  cases hpd : pre.data with
  | nil => simp [hpd] at hp
  | cons a t =>
    rw [hpd] at hh hp
    simp only [List.cons_append, List.head?_cons, Option.some.injEq] at hh hp
    rw [hr, hp] at hh
    exact hcd (Option.some.inj hh)

/-- C12. Required fields of grep and wget, on the Linux executors: when the decoded
pattern or file of a `grep` call is empty, executeGrep returns the argument error and runs
no command; when the decoded url of a `wget` call is empty, executeWget returns the
argument error and runs no command; with those fields non-empty the error returned, if
any, is not the required-field error. -/
theorem grep_wget_required_fields {P : Type} (host : Host P) (toolCall : ToolCall)
    (w : Shell P) :
    (∀ g, host.unmarshalGrep toolCall.Function.Arguments = .ok g →
      ((g.Pattern = "" ∨ g.File = "") →
        Linux.executeGrep host toolCall w =
          (("", some "the 'pattern' and 'file' arguments are required for grep"), w)) ∧
      ((g.Pattern ≠ "" ∧ g.File ≠ "") →
        (Linux.executeGrep host toolCall w).1.2 ≠
          some "the 'pattern' and 'file' arguments are required for grep")) ∧
    (∀ u, host.unmarshalWget toolCall.Function.Arguments = .ok u →
      (u.URL = "" →
        Linux.executeWget host toolCall w =
          (("", some "the 'url' argument is required for wget"), w)) ∧
      (u.URL ≠ "" →
        (Linux.executeWget host toolCall w).1.2 ≠
          some "the 'url' argument is required for wget")) := by
  constructor
  · intro g hg
    constructor
    · intro h
      unfold Linux.executeGrep
      rw [hg]
      simp [h]
    · intro h
      have hn : ¬ (g.Pattern = "" ∨ g.File = "") := by
        intro hc
        rcases hc with hc | hc
        · exact h.1 hc
        · exact h.2 hc
      unfold Linux.executeGrep
      rw [hg]
      simp only [hn, if_false]
      split
      · split
        · simp
        · intro hc
          simp only [Option.some.injEq, String.append_assoc] at hc
          exact append_ne_of_head "command 'grep " _ _ (Char.ofNat 99) (Char.ofNat 116)
            (by decide) (by decide) (by decide) hc
      · simp
  · intro u hu
    constructor
    · intro h
      unfold Linux.executeWget
      rw [hu]
      simp [h]
    · intro h
      unfold Linux.executeWget
      rw [hu]
      simp only [h, if_false]
      split
      · intro hc
        simp only [Option.some.injEq, String.append_assoc] at hc
        exact append_ne_of_head "command 'wget " _ _ (Char.ofNat 99) (Char.ofNat 116)
          (by decide) (by decide) (by decide) hc
      · split <;> simp

theorem grep_wget_required_fields_witness :
    (searchHost "" "" none).unmarshalGrep (mkCall "c1" "grep" "").Function.Arguments =
      .ok { Pattern := "needle", File := "" } ∧
    (searchHost "" "" none).unmarshalWget (mkCall "c1" "grep" "").Function.Arguments =
      .ok { URL := "http://example.org/a" } ∧
    Linux.executeGrep (searchHost "" "" none) (mkCall "c1" "grep" "") shell0 =
      (("", some "the 'pattern' and 'file' arguments are required for grep"), shell0) ∧
    (Linux.executeWget (searchHost "" "" none) (mkCall "c1" "grep" "") shell0).1.2 ≠
      some "the 'url' argument is required for wget" :=
  ⟨rfl, rfl,
    ((grep_wget_required_fields (searchHost "" "" none) (mkCall "c1" "grep" "") shell0).1
      _ rfl).1 (Or.inr rfl),
    ((grep_wget_required_fields (searchHost "" "" none) (mkCall "c1" "grep" "") shell0).2
      _ rfl).2 (by decide)⟩

/-- C13. Exit-status classification on the Linux executors. For a `grep` call with
non-empty pattern and file whose command ends with captured output `o`: no error (exit
status 0) gives the observation `o`; an exit error with code 1 gives the observation
"No matching lines found." without error; every other error gives an empty observation
and an error whose text ends with `o`. The same holds for an accepted `lsof` call with
the sentence "No matching processes found.". -/
theorem exit_status_classification {P : Type} (host : Host P) (toolCall : ToolCall)
    (w : Shell P) (o : String) (err : Option CmdError) :
    (∀ g, host.unmarshalGrep toolCall.Function.Arguments = .ok g →
      (g.Pattern ≠ "" ∧ g.File ≠ "") →
      (host.CombinedOutput { name := "grep", args := Linux.grepCmdArgs g } w.env).1 =
        (o, err) →
      (err = none → (Linux.executeGrep host toolCall w).1 = (o, none)) ∧
      (∀ e, err = some e → e.exitCode = some 1 →
        (Linux.executeGrep host toolCall w).1 = ("No matching lines found.", none)) ∧
      (∀ e, err = some e → e.exitCode ≠ some 1 →
        (Linux.executeGrep host toolCall w).1 =
          ("", some ("command 'grep " ++ Join (Linux.grepCmdArgs g) " " ++ "' failed: " ++
            e.text ++ ", output: " ++ o)))) ∧
    (∀ l, host.unmarshalLsof toolCall.Function.Arguments = .ok l →
      ¬ (l.Port = 0 ∧ l.Path = "" ∧ l.User = "" ∧ l.Options.length = 0) →
      (host.CombinedOutput { name := "lsof", args := Linux.lsofCmdArgs l } w.env).1 =
        (o, err) →
      (err = none → (Linux.executeLsof host toolCall w).1 = (o, none)) ∧
      (∀ e, err = some e → e.exitCode = some 1 →
        (Linux.executeLsof host toolCall w).1 = ("No matching processes found.", none)) ∧
      (∀ e, err = some e → e.exitCode ≠ some 1 →
        (Linux.executeLsof host toolCall w).1 =
          ("", some ("command 'lsof " ++ Join (Linux.lsofCmdArgs l) " " ++ "' failed: " ++
            e.text ++ ", output: " ++ o)))) := by
  constructor
  · intro g hg hgv hgrun
    have hgn : ¬ (g.Pattern = "" ∨ g.File = "") := by
      intro hc
      rcases hc with hc | hc
      · exact hgv.1 hc
      · exact hgv.2 hc
    have hgr : (combinedOutput host { name := "grep", args := Linux.grepCmdArgs g } w).1 =
        (o, err) := hgrun
    refine ⟨?_, ?_, ?_⟩
    · intro he
      subst he
      unfold Linux.executeGrep
      rw [hg]
      simp only [hgn, if_false, hgr]
    · intro e he hcode
      subst he
      unfold Linux.executeGrep
      rw [hg]
      simp only [hgn, if_false, hgr, hcode, if_true]
    · intro e he hcode
      subst he
      unfold Linux.executeGrep
      rw [hg]
      simp only [hgn, if_false, hgr, hcode]
  · intro l hl hlv hlrun
    have hlr : (combinedOutput host { name := "lsof", args := Linux.lsofCmdArgs l } w).1 =
        (o, err) := hlrun
    refine ⟨?_, ?_, ?_⟩
    · intro he
      subst he
      unfold Linux.executeLsof
      rw [hl]
      simp only [hlv, if_false, hlr]
    · intro e he hcode
      subst he
      unfold Linux.executeLsof
      rw [hl]
      simp only [hlv, if_false, hlr, hcode, if_true]
    · intro e he hcode
      subst he
      unfold Linux.executeLsof
      rw [hl]
      simp only [hlv, if_false, hlr, hcode]

theorem exit_status_classification_witness :
    (searchHost "a.txt" "boom" (some ⟨"exit status 2", some 2⟩)).unmarshalGrep
      (mkCall "c1" "grep" "").Function.Arguments = .ok { Pattern := "needle", File := "a.txt" } ∧
    (searchHost "a.txt" "boom" (some ⟨"exit status 2", some 2⟩)).unmarshalLsof
      (mkCall "c1" "grep" "").Function.Arguments = .ok { Port := 8080 } ∧
    (Linux.executeGrep (searchHost "a.txt" "boom" (some ⟨"exit status 2", some 2⟩))
      (mkCall "c1" "grep" "") shell0).1 =
      ("", some "command 'grep needle a.txt' failed: exit status 2, output: boom") ∧
    (Linux.executeLsof (searchHost "a.txt" "boom" (some ⟨"exit status 2", some 2⟩))
      (mkCall "c1" "grep" "") shell0).1 =
      ("", some "command 'lsof -i :8080' failed: exit status 2, output: boom") :=
  ⟨rfl, rfl,
    ((exit_status_classification (searchHost "a.txt" "boom" (some ⟨"exit status 2", some 2⟩))
      (mkCall "c1" "grep" "") shell0 "boom" (some ⟨"exit status 2", some 2⟩)).1
      { Pattern := "needle", File := "a.txt" } rfl (by decide) rfl).2.2
      ⟨"exit status 2", some 2⟩ rfl (by decide),
    ((exit_status_classification (searchHost "a.txt" "boom" (some ⟨"exit status 2", some 2⟩))
      (mkCall "c1" "grep" "") shell0 "boom" (some ⟨"exit status 2", some 2⟩)).2
      { Port := 8080 } rfl (by decide) rfl).2.2
      ⟨"exit status 2", some 2⟩ rfl (by decide)⟩

/-- C14, refuted as stated. On the Linux executor a `ps` call with the user "root" and no
options runs `ps -u root`, not `ps aux`. -/
theorem ps_user_filter_replaces_default :
    (Linux.executePs psUserRoot (mkCall "c1" "ps" "") shell0).2.spawned =
      [{ name := "ps", args := ["-u", "root"] }] := by
  decide

/-- C14, amended. Let `expected` be "aux" when the decoded options are empty and the
decoded options otherwise. On Linux: when user, name and pid are all empty the one command
run is `ps` with `expected`; with a user it is `ps -u <user>`; else with a name it is
`pgrep -af <name>`; else with a pid it is `ps -p <pid>`. On macOS, for any user, name and
pid: without name and user the one command run is `ps` with `expected`; with a name or a
user no command is run when the pipe cannot be created, and once the pipe is created the
first command run is `ps` with `expected`, followed, when it started, by `grep` on the
name (or else the user) reading from that pipe. -/
theorem ps_default_listing {P : Type} (host : Host P) (toolCall : ToolCall) (w : Shell P)
    (args : PsArgs) (hdec : host.unmarshalPs toolCall.Function.Arguments = .ok args) :
    ((args.User = "" ∧ args.Name = "" ∧ args.PID = "") →
      (Linux.executePs host toolCall w).2.spawned = w.spawned ++
        [{ name := "ps", args := if args.Options = [] then ["aux"] else args.Options }]) ∧
    ((args.Name = "" ∧ args.User = "") →
      (Darwin.executePs host toolCall w).2.spawned = w.spawned ++
        [{ name := "ps", args := if args.Options = [] then ["aux"] else args.Options }]) ∧
    ((args.Name ≠ "" ∨ args.User ≠ "") →
      (host.StdoutPipe
        { name := "ps", args := if args.Options = [] then ["aux"] else args.Options }
        w.env).1 = none →
      w.spawned ++
        [{ name := "ps", args := if args.Options = [] then ["aux"] else args.Options }] <+:
        (Darwin.executePs host toolCall w).2.spawned) ∧
    (args.User ≠ "" →
      (Linux.executePs host toolCall w).2.spawned = w.spawned ++
        [{ name := "ps", args := ["-u", args.User] }]) ∧
    ((args.User = "" ∧ args.Name ≠ "") →
      (Linux.executePs host toolCall w).2.spawned = w.spawned ++
        [{ name := "pgrep", args := ["-af", args.Name] }]) ∧
    ((args.User = "" ∧ args.Name = "" ∧ args.PID ≠ "") →
      (Linux.executePs host toolCall w).2.spawned = w.spawned ++
        [{ name := "ps", args := ["-p", args.PID] }]) ∧
    ((args.Name ≠ "" ∨ args.User ≠ "") →
      (host.StdoutPipe
        { name := "ps", args := if args.Options = [] then ["aux"] else args.Options }
        w.env).1 ≠ none →
      (Darwin.executePs host toolCall w).2.spawned = w.spawned) ∧
    ((args.Name ≠ "" ∨ args.User ≠ "") →
      (host.StdoutPipe
        { name := "ps", args := if args.Options = [] then ["aux"] else args.Options }
        w.env).1 = none →
      (Darwin.executePs host toolCall w).2.spawned = w.spawned ++
        (if (host.Start
            { name := "ps", args := if args.Options = [] then ["aux"] else args.Options }
            (host.StdoutPipe
              { name := "ps", args := if args.Options = [] then ["aux"] else args.Options }
              w.env).2).1 = none then
          [{ name := "ps", args := if args.Options = [] then ["aux"] else args.Options },
           { name := "grep", args := [if args.Name ≠ "" then args.Name else args.User],
             stdin := some
               ("ps", if args.Options = [] then ["aux"] else args.Options) }]
        else
          [{ name := "ps",
             args := if args.Options = [] then ["aux"] else args.Options }])) := by
  have hopt : (if args.Options.length > 0 then args.Options else ["aux"]) =
      (if args.Options = [] then ["aux"] else args.Options) := by
    cases args.Options <;> simp
  refine ⟨?_, ?_, ?_, ?_, ?_, ?_, ?_, ?_⟩
  · rintro ⟨hu, hn, hp⟩
    unfold Linux.executePs
    rw [hdec]
    simp only [hu, hn, hp, ne_eq, not_true_eq_false, if_false, List.nil_append]
    rw [hopt]
    split <;> rfl
  · rintro ⟨hn, hu⟩
    unfold Darwin.executePs
    rw [hdec]
    simp only [hu, hn, ne_eq, not_true_eq_false, or_self, if_false]
    rw [hopt]
    split <;> rfl
  · intro hf hpipe
    unfold Darwin.executePs
    rw [hdec]
    simp only [hf, if_true]
    rw [hopt]
    have hpipe2 : (stdoutPipe host
        { name := "ps", args := if args.Options = [] then ["aux"] else args.Options } w).1 =
        none := hpipe
    generalize (if args.Options = [] then ["aux"] else args.Options) = expected at hpipe2 ⊢
    simp only [hpipe2]
    split
    · exact ⟨[], by simp [start, stdoutPipe]⟩
    · split
      · split
        · exact ⟨[_], rfl⟩
        · exact ⟨[_], rfl⟩
      · exact ⟨[_], rfl⟩
  · intro hu
    unfold Linux.executePs
    rw [hdec]
    simp only [hu, ne_eq, not_false_eq_true, if_true]
    split <;> rfl
  · rintro ⟨hu, hn⟩
    unfold Linux.executePs
    rw [hdec]
    simp only [hu, hn, ne_eq, not_true_eq_false, not_false_eq_true, if_false, if_true]
    split
    · split <;> rfl
    · rfl
  · rintro ⟨hu, hn, hp⟩
    unfold Linux.executePs
    rw [hdec]
    simp only [hu, hn, hp, ne_eq, not_true_eq_false, not_false_eq_true, if_false, if_true]
    split <;> rfl
  · intro hf hpipe
    unfold Darwin.executePs
    rw [hdec]
    simp only [hf, if_true]
    rw [hopt]
    have hpipe2 : (stdoutPipe host
        { name := "ps", args := if args.Options = [] then ["aux"] else args.Options } w).1 ≠
        none := hpipe
    generalize (if args.Options = [] then ["aux"] else args.Options) = expected at hpipe2 ⊢
    split
    · rfl
    · rename_i hnone
      exact absurd hnone hpipe2
  · intro hf hpipe
    unfold Darwin.executePs
    rw [hdec]
    simp only [hf, if_true]
    rw [hopt]
    have hpipe2 : (stdoutPipe host
        { name := "ps", args := if args.Options = [] then ["aux"] else args.Options } w).1 =
        none := hpipe
    generalize (if args.Options = [] then ["aux"] else args.Options) = expected at hpipe2 ⊢
    simp only [hpipe2]
    have hstart : (start host { name := "ps", args := expected }
        (stdoutPipe host { name := "ps", args := expected } w).2).1 =
        (host.Start { name := "ps", args := expected }
          (host.StdoutPipe { name := "ps", args := expected } w.env).2).1 := rfl
    rw [← hstart]
    split
    · rename_i e hsome
      rw [if_neg (by rw [hsome]; simp)]
      simp [start, stdoutPipe]
    · rename_i hnone
      rw [if_pos hnone]
      split
      · split <;> simp [combinedOutput, start, stdoutPipe]
      · simp [combinedOutput, start, stdoutPipe]

theorem ps_default_listing_witness :
    psUserRoot.unmarshalPs (mkCall "c1" "ps" "").Function.Arguments = .ok { User := "root" } ∧
    (({ User := "root" } : PsArgs).Name ≠ "" ∨ ({ User := "root" } : PsArgs).User ≠ "") ∧
    (psUserRoot.StdoutPipe { name := "ps", args := ["aux"] } shell0.env).1 = none ∧
    (Darwin.executePs psUserRoot (mkCall "c1" "ps" "") shell0).2.spawned =
      [{ name := "ps", args := ["aux"] },
       { name := "grep", args := ["root"], stdin := some ("ps", ["aux"]) }] ∧
    quietHost.unmarshalPs (mkCall "c2" "ps" "").Function.Arguments = .ok {} ∧
    (Linux.executePs quietHost (mkCall "c2" "ps" "") shell0).2.spawned =
      [{ name := "ps", args := ["aux"] }] ∧
    (Linux.executePs psUserRoot (mkCall "c1" "ps" "") shell0).2.spawned =
      [{ name := "ps", args := ["-u", "root"] }] :=
  ⟨rfl, Or.inr (by decide), rfl,
    (ps_default_listing psUserRoot (mkCall "c1" "ps" "") shell0 { User := "root" }
      rfl).2.2.2.2.2.2.2 (Or.inr (by decide)) rfl,
    rfl,
    (ps_default_listing quietHost (mkCall "c2" "ps" "") shell0 {} rfl).1 ⟨rfl, rfl, rfl⟩,
    (ps_default_listing psUserRoot (mkCall "c1" "ps" "") shell0 { User := "root" }
      rfl).2.2.2.1 (by decide)⟩

/-- C15, refuted as stated. On the macOS executor an `ss` call with port 8080 whose lsof
lookup exits with code 1 returns "No processes found using port 8080.", and one whose
lookup succeeds returns the captured output as it is: neither text mentions lsof. -/
theorem ss_substitution_is_not_documented :
    Darwin.executeSs (ssPort8080 "" (some ⟨"exit status 1", some 1⟩)) (mkCall "c1" "ss" "")
        shell0 =
      (("No processes found using port 8080.", none),
        { env := 1, spawned := [{ name := "lsof", args := ["-i", ":8080"] }] }) ∧
    mentions "No processes found using port 8080." "lsof" = false ∧
    Darwin.executeSs (ssPort8080 "COMMAND PID" none) (mkCall "c1" "ss" "") shell0 =
      (("COMMAND PID", none),
        { env := 1, spawned := [{ name := "lsof", args := ["-i", ":8080"] }] }) ∧
    mentions "COMMAND PID" "lsof" = false := by
  decide

/-- C15, amended. On the macOS executor, for every `ss` call: with a positive port the
one command run is `lsof -i :<port>` and the result is that of the lookup, unchanged (the
captured output on success, "No processes found using port <port>." on exit code 1, the
error "lsof command failed for port <port>: ..." otherwise); without a positive port the
result is the error naming the missing 'ss' command, and no command is run. -/
theorem darwin_ss_substitution {P : Type} (host : Host P) (toolCall : ToolCall) (w : Shell P)
    (args : SsArgs) (hdec : host.unmarshalSs toolCall.Function.Arguments = .ok args) :
    (args.Port > 0 →
      (Darwin.executeSs host toolCall w).2.spawned = w.spawned ++
        [{ name := "lsof", args := ["-i", ":" ++ toString args.Port] }] ∧
      ∀ o err,
        (host.CombinedOutput { name := "lsof", args := ["-i", ":" ++ toString args.Port] }
          w.env).1 = (o, err) →
        (err = none → (Darwin.executeSs host toolCall w).1 = (o, none)) ∧
        (∀ e, err = some e → e.exitCode = some 1 →
          (Darwin.executeSs host toolCall w).1 =
            ("No processes found using port " ++ toString args.Port ++ ".", none)) ∧
        (∀ e, err = some e → e.exitCode ≠ some 1 →
          (Darwin.executeSs host toolCall w).1 =
            ("", some ("lsof command failed for port " ++ toString args.Port ++ ": " ++
              e.text ++ ", output: " ++ o)))) ∧
    (¬ args.Port > 0 →
      Darwin.executeSs host toolCall w =
        (("", some
          "'ss' command is not available on macOS. Try using 'lsof' to check for a specific port"),
          w)) := by
  constructor
  · intro hp
    have hexec : Darwin.executeSs host toolCall w =
        Darwin.executeLsofForPort host args.Port w := by
      unfold Darwin.executeSs
      rw [hdec]
      simp only [hp, if_true]
    rw [hexec]
    constructor
    · unfold Darwin.executeLsofForPort
      simp only []
      split
      · split <;> rfl
      · rfl
    · intro o err hrun
      have hr : (combinedOutput host
          { name := "lsof", args := ["-i", ":" ++ toString args.Port] } w).1 = (o, err) := hrun
      refine ⟨?_, ?_, ?_⟩
      · intro he
        subst he
        unfold Darwin.executeLsofForPort
        simp only [hr]
      · intro e he hcode
        subst he
        unfold Darwin.executeLsofForPort
        simp only [hr, hcode, if_true]
      · intro e he hcode
        subst he
        unfold Darwin.executeLsofForPort
        simp only [hr, hcode, if_false]
  · intro hp
    unfold Darwin.executeSs
    rw [hdec]
    simp only [hp, if_false]

theorem darwin_ss_substitution_witness :
    (ssPort8080 "out" (some ⟨"exit status 2", some 2⟩)).unmarshalSs
      (mkCall "c1" "ss" "").Function.Arguments = .ok { Port := 8080 } ∧
    ({ Port := 8080 } : SsArgs).Port > 0 ∧
    (Darwin.executeSs (ssPort8080 "out" (some ⟨"exit status 2", some 2⟩))
      (mkCall "c1" "ss" "") shell0).2.spawned =
      [{ name := "lsof", args := ["-i", ":8080"] }] ∧
    (Darwin.executeSs (ssPort8080 "out" (some ⟨"exit status 2", some 2⟩))
      (mkCall "c1" "ss" "") shell0).1 =
      ("", some "lsof command failed for port 8080: exit status 2, output: out") ∧
    quietHost.unmarshalSs (mkCall "c2" "ss" "").Function.Arguments = .ok {} ∧
    ¬ ({} : SsArgs).Port > 0 ∧
    Darwin.executeSs quietHost (mkCall "c2" "ss" "") shell0 =
      (("", some
        "'ss' command is not available on macOS. Try using 'lsof' to check for a specific port"),
        shell0) :=
  ⟨rfl, by decide,
    ((darwin_ss_substitution (ssPort8080 "out" (some ⟨"exit status 2", some 2⟩))
      (mkCall "c1" "ss" "") shell0 { Port := 8080 } rfl).1 (by decide)).1,
    (((darwin_ss_substitution (ssPort8080 "out" (some ⟨"exit status 2", some 2⟩))
      (mkCall "c1" "ss" "") shell0 { Port := 8080 } rfl).1 (by decide)).2 "out"
      (some ⟨"exit status 2", some 2⟩) rfl).2.2 ⟨"exit status 2", some 2⟩ rfl (by decide),
    rfl, by decide,
    (darwin_ss_substitution quietHost (mkCall "c2" "ss" "") shell0 {} rfl).2 (by decide)⟩

/-! ## Theorems: failures and the end of the input in the agent loop -/

theorem error_text_ne_empty (e : String) : "Error: " ++ e ≠ "" := by
  intro h
  have hl := congrArg String.length h
  simp only [String.length_append] at hl
  have h7 : ("Error: " : String).length = 7 := by decide
  rw [h7] at hl
  have h0 : ("" : String).length = 0 := by decide
  rw [h0] at hl
  omega

/-- C16. Tool failures are surfaced: when the confirmation line approves and ExecuteTool
returns the error `e` for the pending call, the step adds to the history exactly one tool
message with the id of the call and the content "Error: " followed by `e`, consumes the
confirmation line, and goes on with the remaining tool calls of the assistant message;
when none remains the next step returns to the model. The session is not ended. -/
theorem tool_failure_is_surfaced {W : Type} (env : Env W) (s : State W) (toolCall : ToolCall)
    (pending : List ToolCall) (line : String) (rest : Scanner) (e : String)
    (hc : s.control = .confirmingTool (toolCall :: pending))
    (hs : s.scanner.Scan = (some line, rest))
    (happ : ¬ (ToLower env.caseTable (TrimSpace line) = "n" ∨
      ToLower env.caseTable (TrimSpace line) = "no"))
    (herr : (ExecuteTool env.executors toolCall env.cfg.AllowedTools env.cfg.DeniedTools
      (s.world.record (Event.dispatch toolCall))).1.2 = some e) :
    (step env s).histManager.GetHistory = s.histManager.GetHistory ++
      [{ Role := "tool", ToolCallID := toolCall.ID, Content := some ("Error: " ++ e) }] ∧
    (step env s).control = .confirmingTool pending ∧
    (step env s).scanner = rest ∧
    (pending = [] → (step env (step env s)).control = .awaitingModelResponse ∧
      (step env (step env s)).histManager = (step env s).histManager) := by
  have hobs : (observe env toolCall line s.world).1 = "Error: " ++ e := by
    unfold observe
    simp only [happ, if_false, herr, error_text_ne_empty e]
  rw [step_confirming env s toolCall pending line rest hc hs]
  refine ⟨by simp [hobs, HistoryManager.AddToolObservation, HistoryManager.GetHistory],
    rfl, rfl, ?_⟩
  intro hp
  subst hp
  simp [step, stepTool]

theorem tool_failure_is_surfaced_witness :
    (confirming ["y"]).control = .confirmingTool [findCall] ∧
    (confirming ["y"]).scanner.Scan = (some "y", NewScanner []) ∧
    ¬ (ToLower denyFindEnv.caseTable (TrimSpace "y") = "n" ∨
      ToLower denyFindEnv.caseTable (TrimSpace "y") = "no") ∧
    (ExecuteTool denyFindEnv.executors findCall denyFindEnv.cfg.AllowedTools
      denyFindEnv.cfg.DeniedTools
      ((confirming ["y"]).world.record (Event.dispatch findCall))).1.2 =
      some "tool 'find' is in the configured blacklist" ∧
    (step denyFindEnv (confirming ["y"])).histManager.GetHistory =
      (confirming ["y"]).histManager.GetHistory ++
        [{ Role := "tool", ToolCallID := "call_1",
           Content := some "Error: tool 'find' is in the configured blacklist" }] ∧
    (step denyFindEnv (step denyFindEnv (confirming ["y"]))).control =
      .awaitingModelResponse :=
  ⟨rfl, by decide, by decide, by decide,
    (tool_failure_is_surfaced denyFindEnv (confirming ["y"]) findCall [] "y" (NewScanner [])
      "tool 'find' is in the configured blacklist" rfl (by decide) (by decide)
      (by decide)).1,
    ((tool_failure_is_surfaced denyFindEnv (confirming ["y"]) findCall [] "y" (NewScanner [])
      "tool 'find' is in the configured blacklist" rfl (by decide) (by decide)
      (by decide)).2.2.2 rfl).1⟩

/-- C17. Model failure aborts only the inner cycle: when ChatCompletion returns an error,
or a response without choices, the step leaves the history and the unread input as they
were, adds to the call trace the one call of the model and nothing else (no dispatcher, no
executor), and returns to the user prompt; the session is not ended. -/
theorem model_failure_aborts_inner_cycle {W : Type} (env : Env W) (s : State W)
    (hc : s.control = .awaitingModelResponse)
    (hfail :
      (∃ e, (env.ChatCompletion
        { Model := env.cfg.Model, Messages := s.histManager.GetHistory,
          Tools := GetToolDefinitions } s.world.env).1 = .error e) ∨
      (∃ r, (env.ChatCompletion
        { Model := env.cfg.Model, Messages := s.histManager.GetHistory,
          Tools := GetToolDefinitions } s.world.env).1 = .ok r ∧ r.Choices = [])) :
    (step env s).histManager = s.histManager ∧
    (step env s).scanner = s.scanner ∧
    (step env s).control = .awaitingUserInput ∧
    (step env s).world.trace = s.world.trace ++
      [Event.chat { Model := env.cfg.Model, Messages := s.histManager.GetHistory,
                    Tools := GetToolDefinitions }] := by
  have hstep : step env s = stepModel env s := by
    simp [step, hc]
  rw [hstep]
  unfold stepModel
  rcases hfail with ⟨e, he⟩ | ⟨r, hr, hch⟩
  · simp only [he]
    simp
  · simp only [hr, hch]
    simp

theorem model_failure_aborts_inner_cycle_witness :
    (awaitingModel ["next"]).control = .awaitingModelResponse ∧
    (step failingModelEnv (awaitingModel ["next"])).histManager =
      (awaitingModel ["next"]).histManager ∧
    (step failingModelEnv (awaitingModel ["next"])).scanner = NewScanner ["next"] ∧
    (step failingModelEnv (awaitingModel ["next"])).control = .awaitingUserInput :=
  ⟨rfl,
    (model_failure_aborts_inner_cycle failingModelEnv (awaitingModel ["next"]) rfl
      (Or.inl ⟨"connection refused", rfl⟩)).1,
    (model_failure_aborts_inner_cycle failingModelEnv (awaitingModel ["next"]) rfl
      (Or.inl ⟨"connection refused", rfl⟩)).2.1,
    (model_failure_aborts_inner_cycle failingModelEnv (awaitingModel ["next"]) rfl
      (Or.inl ⟨"connection refused", rfl⟩)).2.2.1⟩

theorem utf8ByteSize_replicate (n : Nat) :
    (String.mk (List.replicate n (Char.ofNat 97))).utf8ByteSize = n := by
  induction n with
  | zero => rfl
  | succ n ih =>
    have h : (String.mk (List.replicate (n + 1) (Char.ofNat 97))).utf8ByteSize =
        (String.mk (List.replicate n (Char.ofNat 97))).utf8ByteSize +
          (Char.ofNat 97).utf8Size := by
      simp [String.utf8ByteSize, String.utf8ByteSize.go, List.replicate_succ]
    rw [h, ih]
    rfl

theorem longLine_size : longLine.utf8ByteSize = MaxScanTokenSize :=
  utf8ByteSize_replicate MaxScanTokenSize

theorem dropWhile_replicate_a (n : Nat) :
    (List.replicate n (Char.ofNat 97)).dropWhile isSpace = List.replicate n (Char.ofNat 97) := by
  cases n with
  | zero => rfl
  | succ n =>
    rw [List.replicate_succ]
    exact List.dropWhile_cons_of_neg (by decide)

theorem TrimSpace_longLine : TrimSpace longLine = longLine := by
  simp only [TrimSpace, longLine, dropWhile_replicate_a, List.reverse_replicate]

theorem ToLower_longLine (table : Char → Char) : ToLower table longLine = longLine := by
  simp only [ToLower, longLine, List.map_replicate]
  rfl

theorem longLine_ne_short (t : String) (h : t.utf8ByteSize < MaxScanTokenSize) :
    longLine ≠ t := by
  intro heq
  rw [← heq, longLine_size] at h
  exact Nat.lt_irrefl _ h

theorem Scan_too_long (sc : Scanner) (raw : String) (more : List String)
    (herr : sc.err = none) (hlines : sc.lines = raw :: more)
    (hlong : ¬ raw.utf8ByteSize < MaxScanTokenSize) :
    sc.Scan = (none, { lines := more, err := some "bufio.Scanner: token too long",
                       buffer := some ⟨takeBytes MaxScanTokenSize raw.data⟩ }) := by
  unfold Scanner.Scan
  simp only [herr, hlines, hlong, if_false]

theorem Scan_line (sc : Scanner) (raw : String) (more : List String)
    (herr : sc.err = none) (hlines : sc.lines = raw :: more)
    (hshort : raw.utf8ByteSize < MaxScanTokenSize) :
    sc.Scan = (some (dropCR raw), { sc with lines := more }) := by
  unfold Scanner.Scan
  simp only [herr, hlines, hshort, if_true]

theorem run_zero_eq {W : Type} (env : Env W) (s : State W) : run env 0 s = s := rfl

theorem step_read_failed {W : Type} (env : Env W) (s : State W) (rest : Scanner)
    (hc : s.control = .awaitingUserInput) (hs : s.scanner.Scan = (none, rest)) :
    step env s = { s with scanner := rest, control := .sessionEnded } := by
  have hstep : step env s = stepUserInput env s := by
    simp [step, hc]
  rw [hstep]
  unfold stepUserInput
  simp only [hs]

/-- C18, refuted as stated. The input is the one line `longLine` of 65536 letters "a":
trimmed it is not empty and its lower-case form is neither "exit" nor "quit", yet the
first step adds no user message and calls no model: the read fails, the outer loop is
left with the history unchanged, and the process ends through `log.Fatalf`. -/
theorem long_line_ends_session :
    longLine.utf8ByteSize = 65536 ∧
    TrimSpace longLine ≠ "" ∧
    ¬ (ToLower sampleEnv.caseTable (TrimSpace longLine) = "exit" ∨
      ToLower sampleEnv.caseTable (TrimSpace longLine) = "quit") ∧
    (mainAfter sampleEnv [longLine] 0 1).control = .sessionEnded ∧
    (mainAfter sampleEnv [longLine] 0 1).histManager =
      (mainAfter sampleEnv [longLine] 0 0).histManager ∧
    (mainAfter sampleEnv [longLine] 0 1).world.trace = [] ∧
    ending (mainAfter sampleEnv [longLine] 0 1) =
      .fatal "Error reading from stdin: bufio.Scanner: token too long" := by
  have hscan := Scan_too_long (NewScanner [longLine]) longLine [] rfl rfl
    (by rw [longLine_size]; exact Nat.lt_irrefl _)
  have hrun : mainAfter sampleEnv [longLine] 0 1 = step sampleEnv (initial [longLine] 0) := by
    unfold mainAfter
    rw [run_succ_eq, run_zero_eq]
  have hzero : mainAfter sampleEnv [longLine] 0 0 = initial [longLine] 0 := by
    unfold mainAfter
    rw [run_zero_eq]
  have hstep := step_read_failed sampleEnv (initial [longLine] 0) _ rfl hscan
  rw [hrun, hzero, hstep]
  refine ⟨longLine_size, ?_, ?_, rfl, rfl, rfl, rfl⟩
  · rw [TrimSpace_longLine]
    exact longLine_ne_short "" (by decide)
  · rw [TrimSpace_longLine, ToLower_longLine]
    intro h
    rcases h with h | h
    · exact longLine_ne_short "exit" (by decide) h
    · exact longLine_ne_short "quit" (by decide) h

/-- C18, amended. User-input transition for a line that is read. At the user prompt, when
Scan hands out the line `line`, with `t` the trimmed line: if the lower-cased `t` is
"exit" or "quit" the session ends, the history and the surroundings unchanged (the model
is not called); else if `t` is empty the loop stays at the user prompt, history and
surroundings unchanged; otherwise exactly one user message with content `t` is added and
the next step calls the model with the conversation ending in that message. When Scan
fails the session ends with history and surroundings unchanged. While the scanner has met
no error, a line of fewer than 65536 bytes is handed out (without a trailing carriage
return), and a line of 65536 bytes or more makes Scan fail and the process end through
`log.Fatalf`. -/
theorem user_input_transition {W : Type} (env : Env W) (s : State W)
    (hc : s.control = .awaitingUserInput) :
    (∀ line rest, s.scanner.Scan = (some line, rest) →
      ((ToLower env.caseTable (TrimSpace line) = "exit" ∨
          ToLower env.caseTable (TrimSpace line) = "quit") →
        (step env s).control = .sessionEnded ∧ (step env s).histManager = s.histManager ∧
        (step env s).world = s.world) ∧
      (¬ (ToLower env.caseTable (TrimSpace line) = "exit" ∨
          ToLower env.caseTable (TrimSpace line) = "quit") → TrimSpace line = "" →
        (step env s).control = .awaitingUserInput ∧ (step env s).histManager = s.histManager ∧
        (step env s).world = s.world ∧ (step env s).scanner = rest) ∧
      (¬ (ToLower env.caseTable (TrimSpace line) = "exit" ∨
          ToLower env.caseTable (TrimSpace line) = "quit") → TrimSpace line ≠ "" →
        (step env s).control = .awaitingModelResponse ∧
        (step env s).histManager.GetHistory = s.histManager.GetHistory ++
          [{ Role := "user", Content := some (TrimSpace line) }] ∧
        (step env s).world = s.world ∧
        (step env (step env s)).world.trace = s.world.trace ++
          [Event.chat { Model := env.cfg.Model,
                        Messages := s.histManager.GetHistory ++
                          [{ Role := "user", Content := some (TrimSpace line) }],
                        Tools := GetToolDefinitions }])) ∧
    (∀ rest, s.scanner.Scan = (none, rest) →
      (step env s).control = .sessionEnded ∧ (step env s).histManager = s.histManager ∧
      (step env s).world = s.world ∧ (step env s).scanner = rest) ∧
    (∀ raw more, s.scanner.err = none → s.scanner.lines = raw :: more →
      (raw.utf8ByteSize < 65536 →
        s.scanner.Scan = (some (dropCR raw), { s.scanner with lines := more })) ∧
      (¬ raw.utf8ByteSize < 65536 →
        s.scanner.Scan.1 = none ∧
        ending (step env s) =
          .fatal "Error reading from stdin: bufio.Scanner: token too long")) := by
  have hstep : step env s = stepUserInput env s := by
    simp [step, hc]
  refine ⟨?_, ?_, ?_⟩
  · intro line rest hs
    refine ⟨?_, ?_, ?_⟩
    · intro hexit
      rw [hstep]
      unfold stepUserInput
      simp only [hs, hexit, if_true]
      simp
    · intro hexit hempty
      rw [hstep]
      unfold stepUserInput
      simp only [hs]
      rw [if_neg hexit, if_pos hempty]
      exact ⟨hc, rfl, rfl, rfl⟩
    · intro hexit hne
      have hnext : stepUserInput env s =
          { s with scanner := rest,
                   histManager := s.histManager.AddUserMessage (TrimSpace line),
                   control := .awaitingModelResponse } := by
        unfold stepUserInput
        simp only [hs]
        rw [if_neg hexit, if_neg hne]
      rw [hstep, hnext]
      refine ⟨rfl, rfl, rfl, ?_⟩
      simp only [step, stepModel, HistoryManager.GetHistory, HistoryManager.AddUserMessage]
      split
      · rfl
      · split
        · rfl
        · split <;> rfl
  · intro rest hs
    rw [step_read_failed env s rest hc hs]
    exact ⟨rfl, rfl, rfl, rfl⟩
  · intro raw more herr hlines
    constructor
    · intro hshort
      exact Scan_line s.scanner raw more herr hlines hshort
    · intro hlong
      have hscan := Scan_too_long s.scanner raw more herr hlines hlong
      refine ⟨by rw [hscan], ?_⟩
      rw [step_read_failed env s _ hc hscan]
      rfl

theorem user_input_transition_witness :
    (awaitingUser ["  Quit ", "more"]).control = .awaitingUserInput ∧
    (awaitingUser ["  Quit ", "more"]).scanner.Scan = (some "  Quit ", NewScanner ["more"]) ∧
    ToLower sampleEnv.caseTable (TrimSpace "  Quit ") = "quit" ∧
    (step sampleEnv (awaitingUser ["  Quit ", "more"])).control = .sessionEnded ∧
    (step sampleEnv (awaitingUser ["  Quit ", "more"])).histManager =
      (awaitingUser ["  Quit ", "more"]).histManager ∧
    (awaitingUser ["list files", "y"]).control = .awaitingUserInput ∧
    (awaitingUser ["list files", "y"]).scanner.Scan = (some "list files", NewScanner ["y"]) ∧
    (step sampleEnv (awaitingUser ["list files", "y"])).control = .awaitingModelResponse ∧
    (step sampleEnv (awaitingUser ["list files", "y"])).histManager.GetHistory =
      (awaitingUser ["list files", "y"]).histManager.GetHistory ++
        [{ Role := "user", Content := some "list files" }] ∧
    (awaitingUser [" \t", "y"]).scanner.Scan = (some " \t", NewScanner ["y"]) ∧
    (step sampleEnv (awaitingUser [" \t", "y"])).control = .awaitingUserInput ∧
    (step sampleEnv (awaitingUser [" \t", "y"])).histManager =
      (awaitingUser [" \t", "y"]).histManager ∧
    (awaitingUser []).scanner.Scan = (none, NewScanner []) ∧
    (step sampleEnv (awaitingUser [])).control = .sessionEnded ∧
    (awaitingUser [longLine]).scanner.lines = [longLine] ∧
    ¬ longLine.utf8ByteSize < 65536 ∧
    ending (step sampleEnv (awaitingUser [longLine])) =
      .fatal "Error reading from stdin: bufio.Scanner: token too long" :=
  ⟨rfl, by decide, by decide,
    (((user_input_transition sampleEnv (awaitingUser ["  Quit ", "more"]) rfl).1 "  Quit "
      (NewScanner ["more"]) (by decide)).1 (Or.inr (by decide))).1,
    (((user_input_transition sampleEnv (awaitingUser ["  Quit ", "more"]) rfl).1 "  Quit "
      (NewScanner ["more"]) (by decide)).1 (Or.inr (by decide))).2.1,
    rfl, by decide,
    (((user_input_transition sampleEnv (awaitingUser ["list files", "y"]) rfl).1 "list files"
      (NewScanner ["y"]) (by decide)).2.2 (by decide) (by decide)).1,
    (((user_input_transition sampleEnv (awaitingUser ["list files", "y"]) rfl).1 "list files"
      (NewScanner ["y"]) (by decide)).2.2 (by decide) (by decide)).2.1,
    by decide,
    (((user_input_transition sampleEnv (awaitingUser [" \t", "y"]) rfl).1 " \t"
      (NewScanner ["y"]) (by decide)).2.1 (by decide) (by decide)).1,
    (((user_input_transition sampleEnv (awaitingUser [" \t", "y"]) rfl).1 " \t"
      (NewScanner ["y"]) (by decide)).2.1 (by decide) (by decide)).2.1,
    by decide,
    ((user_input_transition sampleEnv (awaitingUser []) rfl).2.1 (NewScanner [])
      (by decide)).1,
    rfl,
    by rw [longLine_size]; exact Nat.lt_irrefl _,
    (((user_input_transition sampleEnv (awaitingUser [longLine]) rfl).2.2 longLine []
      rfl rfl).2 (by rw [longLine_size]; exact Nat.lt_irrefl _)).2⟩

theorem run_sessionEnded {W : Type} (env : Env W) (n : Nat) (s : State W)
    (h : s.control = .sessionEnded) : run env n s = s := by
  induction n with
  | zero => rfl
  | succ n ih =>
    have hstep : step env s = s := by
      simp [step, h]
    simp only [run, hstep]
    exact ih

/-- A failed read at the user prompt ends the session: the step goes to `sessionEnded`
with history and surroundings unchanged, and no later step changes the state, so neither
the model nor the dispatcher is called again. -/
theorem end_of_input_at_user_prompt {W : Type} (env : Env W) (s : State W) (n : Nat)
    (hc : s.control = .awaitingUserInput) (hs : s.scanner.Scan.1 = none) :
    run env (n + 1) s = { s with scanner := s.scanner.Scan.2, control := .sessionEnded } := by
  have hstep : step env s =
      { s with scanner := s.scanner.Scan.2, control := .sessionEnded } := by
    simp [step, hc, stepUserInput, hs]
  simp only [run, hstep]
  exact run_sessionEnded env n _ rfl

theorem end_of_input_at_user_prompt_witness :
    (awaitingUser []).control = .awaitingUserInput ∧
    (awaitingUser []).scanner.Scan.1 = none ∧
    (run sampleEnv (5 + 1) (awaitingUser [])).control = .sessionEnded :=
  ⟨rfl, rfl, by rw [end_of_input_at_user_prompt sampleEnv (awaitingUser []) 5 rfl rfl]⟩

theorem confirm_at_end_cycle (s : State Nat) (hs : s.scanner = NewScanner [])
    (hc : s.control = .confirmingTool [findCall]) :
    (step sampleEnv s).control = .awaitingModelResponse ∧
    (step sampleEnv (step sampleEnv s)).scanner = NewScanner [] ∧
    (step sampleEnv (step sampleEnv s)).control = .confirmingTool [findCall] ∧
    (chats (step sampleEnv (step sampleEnv s)).world.trace).length =
      (chats s.world.trace).length + 1 ∧
    dispatches (step sampleEnv (step sampleEnv s)).world.trace = dispatches s.world.trace := by
  have hscan : s.scanner.Scan = (none, NewScanner []) := by
    rw [hs]
    rfl
  have h1 : step sampleEnv s =
      { s with scanner := NewScanner [], control := .awaitingModelResponse } := by
    simp [step, hc, stepTool, hscan]
  rw [h1]
  refine ⟨rfl, ?_, ?_, ?_, ?_⟩
  · simp [step, stepModel, sampleEnv, alwaysFind]
  · simp [step, stepModel, sampleEnv, alwaysFind]
  · simp [step, stepModel, sampleEnv, alwaysFind, chats_append, chats]
  · simp [step, stepModel, sampleEnv, alwaysFind, dispatches_append, dispatches]

/-- C19, evaluated where it fails. The input is the single line "list files" and the
model asks for one `find` call on every request. After two steps the confirmation prompt
finds the input ended; from there on, for every `k`, after `2 + 2 * k` steps the loop is
again at a confirmation prompt with the input ended, has called the model `k + 1` times
and the dispatcher never, and its next step returns to the model: the model is called
again and again without bound, and the session is never ended. -/
theorem end_of_input_at_confirmation_calls_model_again (k : Nat) :
    (mainAfter sampleEnv ["list files"] 0 (2 + 2 * k)).scanner = NewScanner [] ∧
    (mainAfter sampleEnv ["list files"] 0 (2 + 2 * k)).control = .confirmingTool [findCall] ∧
    (chats (mainAfter sampleEnv ["list files"] 0 (2 + 2 * k)).world.trace).length = k + 1 ∧
    dispatches (mainAfter sampleEnv ["list files"] 0 (2 + 2 * k)).world.trace = [] ∧
    (mainAfter sampleEnv ["list files"] 0 (2 + 2 * k + 1)).control =
      .awaitingModelResponse := by
  have key : (mainAfter sampleEnv ["list files"] 0 (2 + 2 * k)).scanner = NewScanner [] ∧
      (mainAfter sampleEnv ["list files"] 0 (2 + 2 * k)).control = .confirmingTool [findCall] ∧
      (chats (mainAfter sampleEnv ["list files"] 0 (2 + 2 * k)).world.trace).length = k + 1 ∧
      dispatches (mainAfter sampleEnv ["list files"] 0 (2 + 2 * k)).world.trace = [] := by
    induction k with
    | zero => decide
    | succ k ih =>
      obtain ⟨hs, hc, hn, hd⟩ := ih
      have hidx : 2 + 2 * (k + 1) = (2 + 2 * k + 1) + 1 := by omega
      have hrun : mainAfter sampleEnv ["list files"] 0 (2 + 2 * (k + 1)) =
          step sampleEnv (step sampleEnv (mainAfter sampleEnv ["list files"] 0 (2 + 2 * k))) := by
        rw [hidx]
        unfold mainAfter
        rw [run_succ_eq, run_succ_eq]
      obtain ⟨_, c2, c3, c4, c5⟩ := confirm_at_end_cycle _ hs hc
      rw [hrun]
      exact ⟨c2, c3, by rw [c4, hn], by rw [c5, hd]⟩
  obtain ⟨hs, hc, hn, hd⟩ := key
  refine ⟨hs, hc, hn, hd, ?_⟩
  have hrun : mainAfter sampleEnv ["list files"] 0 (2 + 2 * k + 1) =
      step sampleEnv (mainAfter sampleEnv ["list files"] 0 (2 + 2 * k)) := by
    unfold mainAfter
    rw [run_succ_eq]
  rw [hrun]
  exact (confirm_at_end_cycle _ hs hc).1

/-! ## Theorems: the operands of grep -/

/-- C20, evaluated where it fails. For the pattern "needle" and the `file` argument
"a.txt b.txt" the macOS executor runs grep with the single operand "a.txt b.txt", while
the Linux executor runs it with the two operands "a.txt" and "b.txt"; and for a `file`
argument that is one blank the Linux executor runs grep with no file operand at all. -/
theorem darwin_grep_passes_files_as_one_operand :
    (Darwin.executeGrep (searchHost "a.txt b.txt" "" none) (mkCall "c1" "grep" "")
      shell0).2.spawned = [{ name := "grep", args := ["needle", "a.txt b.txt"] }] ∧
    (Linux.executeGrep (searchHost "a.txt b.txt" "" none) (mkCall "c1" "grep" "")
      shell0).2.spawned = [{ name := "grep", args := ["needle", "a.txt", "b.txt"] }] ∧
    (Linux.executeGrep (searchHost " " "" none) (mkCall "c1" "grep" "")
      shell0).2.spawned = [{ name := "grep", args := ["needle"] }] := by
  decide

/-- The operands of grep on Linux: for every accepted `grep` call the one command run is
grep with the enabled flags in the order -r, -i, -c, then the pattern, then the fields of
the `file` argument, one operand each. -/
theorem linux_grep_argv {P : Type} (host : Host P) (toolCall : ToolCall) (w : Shell P)
    (args : GrepArgs) (hdec : host.unmarshalGrep toolCall.Function.Arguments = .ok args)
    (hvalid : args.Pattern ≠ "" ∧ args.File ≠ "") :
    (Linux.executeGrep host toolCall w).2.spawned = w.spawned ++
      [{ name := "grep",
         args := (if args.Recursive then ["-r"] else []) ++
           (if args.IgnoreCase then ["-i"] else []) ++
           (if args.CountOnly then ["-c"] else []) ++ [args.Pattern] ++ Fields args.File }] := by
  have hn : ¬ (args.Pattern = "" ∨ args.File = "") := by
    intro hc
    rcases hc with hc | hc
    · exact hvalid.1 hc
    · exact hvalid.2 hc
  have hargv : Linux.grepCmdArgs args =
      (if args.Recursive then ["-r"] else []) ++ (if args.IgnoreCase then ["-i"] else []) ++
        (if args.CountOnly then ["-c"] else []) ++ [args.Pattern] ++ Fields args.File := by
    unfold Linux.grepCmdArgs
    cases args.Recursive <;> cases args.IgnoreCase <;> cases args.CountOnly <;> simp
  unfold Linux.executeGrep
  rw [hdec]
  simp only [hn, if_false]
  rw [hargv]
  split
  · split <;> rfl
  · rfl

theorem linux_grep_argv_witness :
    (searchHost "a.txt  b.txt" "" none).unmarshalGrep
      (mkCall "c1" "grep" "").Function.Arguments =
      .ok { Pattern := "needle", File := "a.txt  b.txt" } ∧
    (Linux.executeGrep (searchHost "a.txt  b.txt" "" none) (mkCall "c1" "grep" "")
      shell0).2.spawned = [{ name := "grep", args := ["needle", "a.txt", "b.txt"] }] :=
  ⟨rfl,
    linux_grep_argv (searchHost "a.txt  b.txt" "" none) (mkCall "c1" "grep" "") shell0
      { Pattern := "needle", File := "a.txt  b.txt" } rfl (by decide)⟩

/-! ## Theorems: the filters of lsof -/

/-- C21, evaluated where it fails. On the Linux executor an `lsof` call whose decoded
arguments hold the port -1 and nothing else passes the test for a missing filter, adds no
filter for the port, and runs `lsof` with an empty argument list, without error. -/
theorem lsof_runs_without_filter_for_negative_port :
    Linux.executeLsof (lsofPortOnly (-1)) (mkCall "c1" "lsof" "") shell0 =
      (("", none), { env := 1, spawned := [{ name := "lsof", args := [] }] }) := by
  decide

/-- The filters of lsof on Linux when the port is not negative: either all of port, path,
user and options are missing, and executeLsof returns the argument error and runs no
command; or the one command run is `lsof` with the options, then `-i :<port>` for a
positive port, then `-u <user>` for a user, then the path, and that argument list is not
empty. -/
theorem linux_lsof_argv {P : Type} (host : Host P) (toolCall : ToolCall) (w : Shell P)
    (args : LsofArgs) (hdec : host.unmarshalLsof toolCall.Function.Arguments = .ok args)
    (hport : 0 ≤ args.Port) :
    ((args.Port = 0 ∧ args.Path = "" ∧ args.User = "" ∧ args.Options = []) →
      Linux.executeLsof host toolCall w =
        (("", some
          "at least one of 'port', 'path', 'user', or 'options' must be provided for lsof"),
          w)) ∧
    (¬ (args.Port = 0 ∧ args.Path = "" ∧ args.User = "" ∧ args.Options = []) →
      (Linux.executeLsof host toolCall w).2.spawned = w.spawned ++
        [{ name := "lsof", args := Linux.lsofCmdArgs args }] ∧
      Linux.lsofCmdArgs args =
        args.Options ++ (if args.Port > 0 then ["-i", ":" ++ toString args.Port] else []) ++
          (if args.User ≠ "" then ["-u", args.User] else []) ++
          (if args.Path ≠ "" then [args.Path] else []) ∧
      Linux.lsofCmdArgs args ≠ []) := by
  have hlen : (args.Options.length = 0) ↔ args.Options = [] := List.length_eq_zero
  have hargv : Linux.lsofCmdArgs args =
      args.Options ++ (if args.Port > 0 then ["-i", ":" ++ toString args.Port] else []) ++
        (if args.User ≠ "" then ["-u", args.User] else []) ++
        (if args.Path ≠ "" then [args.Path] else []) := by
    unfold Linux.lsofCmdArgs
    by_cases h1 : args.Options.length > 0 <;> by_cases h2 : args.Port > 0 <;>
      by_cases h3 : args.User = "" <;> by_cases h4 : args.Path = "" <;>
      simp [h1, h2, h3, h4]
    all_goals
      have h0 : args.Options = [] := List.length_eq_zero.mp (by omega)
      simp [h0]
  constructor
  · rintro ⟨h1, h2, h3, h4⟩
    unfold Linux.executeLsof
    rw [hdec]
    simp [h1, h2, h3, h4]
  · intro hn
    have hguard : ¬ (args.Port = 0 ∧ args.Path = "" ∧ args.User = "" ∧
        args.Options.length = 0) := by
      rw [hlen]
      exact hn
    refine ⟨?_, hargv, ?_⟩
    · unfold Linux.executeLsof
      rw [hdec]
      simp only [hguard, if_false]
      split
      · split <;> rfl
      · rfl
    · rw [hargv]
      intro hnil
      apply hn
      by_cases h2 : args.Port > 0
      · simp [h2] at hnil
      · by_cases h3 : args.User = ""
        · by_cases h4 : args.Path = ""
          · simp [h2, h3, h4] at hnil
            exact ⟨by omega, h4, h3, hnil⟩
          · simp [h4] at hnil
        · simp [h3] at hnil

theorem linux_lsof_argv_witness :
    (lsofPortOnly 8080).unmarshalLsof (mkCall "c1" "lsof" "").Function.Arguments =
      .ok { Port := 8080 } ∧
    (0 : Int) ≤ ({ Port := 8080 } : LsofArgs).Port ∧
    (Linux.executeLsof (lsofPortOnly 8080) (mkCall "c1" "lsof" "") shell0).2.spawned =
      [{ name := "lsof", args := ["-i", ":8080"] }] :=
  ⟨rfl, by decide,
    ((linux_lsof_argv (lsofPortOnly 8080) (mkCall "c1" "lsof" "") shell0 { Port := 8080 } rfl
      (by decide)).2 (by decide)).1⟩

/-! ## Theorems: the policy and the substituted lookup -/

theorem darwin_ss_dispatch {P : Type} (host : Host P) (toolCall : ToolCall) (args : SsArgs)
    (allow deny : List String) (w : World (Shell P))
    (hname : toolCall.Function.Name = "ss")
    (hdec : host.unmarshalSs toolCall.Function.Arguments = .ok args) (hport : args.Port > 0)
    (hd : "ss" ∉ deny) (ha : allow = [] ∨ "ss" ∈ allow) :
    ExecuteTool (Darwin.executors host) toolCall allow deny w =
      ((Darwin.executeLsofForPort host args.Port w.env).1,
        { env := (Darwin.executeLsofForPort host args.Port w.env).2,
          trace := w.trace ++ [Event.exec "ss" toolCall] }) := by
  have hd2 : toolCall.Function.Name ∉ deny := by
    rw [hname]
    exact hd
  have ha2 : allow = [] ∨ toolCall.Function.Name ∈ allow := by
    rw [hname]
    exact ha
  rw [ExecuteTool_allowed (Darwin.executors host) toolCall allow deny w hd2 ha2]
  have hexec : Darwin.executeSs host toolCall w.env =
      Darwin.executeLsofForPort host args.Port w.env := by
    unfold Darwin.executeSs
    rw [hdec]
    simp only [hport, if_true]
  unfold routeTool
  simp only [hname]
  simp only [show ¬ ("ss" = "ps") by decide, show ¬ ("ss" = "find") by decide,
    show ¬ ("ss" = "grep") by decide, show ¬ ("ss" = "wget") by decide, if_false, if_true]
  simp only [invoke, Darwin.executors, hexec]

/-- C22. The policy looks at the requested tool name only. On the macOS executors, for an
`ss` call with a positive decoded port and any allow and deny lists that let "ss" through,
ExecuteTool returns the result of the lsof port lookup, the one command run is
`lsof -i :<port>`, and the outcome is the same for any other pair of lists that lets "ss"
through, so it does not depend on whether "lsof" is denied or missing from the allow
list. -/
theorem policy_applies_to_requested_name_only {P : Type} (host : Host P) (toolCall : ToolCall)
    (args : SsArgs) (allow deny allow2 deny2 : List String) (w : World (Shell P))
    (hname : toolCall.Function.Name = "ss")
    (hdec : host.unmarshalSs toolCall.Function.Arguments = .ok args) (hport : args.Port > 0)
    (hd : "ss" ∉ deny) (ha : allow = [] ∨ "ss" ∈ allow)
    (hd2 : "ss" ∉ deny2) (ha2 : allow2 = [] ∨ "ss" ∈ allow2) :
    (ExecuteTool (Darwin.executors host) toolCall allow deny w).1 =
      (Darwin.executeLsofForPort host args.Port w.env).1 ∧
    (ExecuteTool (Darwin.executors host) toolCall allow deny w).2.env.spawned =
      w.env.spawned ++ [{ name := "lsof", args := ["-i", ":" ++ toString args.Port] }] ∧
    ExecuteTool (Darwin.executors host) toolCall allow deny w =
      ExecuteTool (Darwin.executors host) toolCall allow2 deny2 w := by
  rw [darwin_ss_dispatch host toolCall args allow deny w hname hdec hport hd ha,
    darwin_ss_dispatch host toolCall args allow2 deny2 w hname hdec hport hd2 ha2]
  refine ⟨rfl, ?_, rfl⟩
  unfold Darwin.executeLsofForPort
  simp only []
  split
  · split <;> rfl
  · rfl

theorem policy_applies_to_requested_name_only_witness :
    (mkCall "c1" "ss" "").Function.Name = "ss" ∧
    (ssPort8080 "COMMAND PID" none).unmarshalSs (mkCall "c1" "ss" "").Function.Arguments =
      .ok { Port := 8080 } ∧
    ({ Port := 8080 } : SsArgs).Port > 0 ∧
    "ss" ∉ ["lsof"] ∧ (["ss"] = [] ∨ "ss" ∈ ["ss"]) ∧
    "ss" ∉ ([] : List String) ∧ (["ss", "lsof"] = [] ∨ "ss" ∈ ["ss", "lsof"]) ∧
    (ExecuteTool (Darwin.executors (ssPort8080 "COMMAND PID" none)) (mkCall "c1" "ss" "")
      ["ss"] ["lsof"] platformWorld0).1 = ("COMMAND PID", none) ∧
    (ExecuteTool (Darwin.executors (ssPort8080 "COMMAND PID" none)) (mkCall "c1" "ss" "")
      ["ss"] ["lsof"] platformWorld0).2.env.spawned =
      [{ name := "lsof", args := ["-i", ":8080"] }] ∧
    ExecuteTool (Darwin.executors (ssPort8080 "COMMAND PID" none)) (mkCall "c1" "ss" "")
        ["ss"] ["lsof"] platformWorld0 =
      ExecuteTool (Darwin.executors (ssPort8080 "COMMAND PID" none)) (mkCall "c1" "ss" "")
        ["ss", "lsof"] [] platformWorld0 :=
  ⟨rfl, rfl, by decide, by decide, Or.inr (by decide), by decide, Or.inr (by decide),
    policy_applies_to_requested_name_only (ssPort8080 "COMMAND PID" none)
      (mkCall "c1" "ss" "") { Port := 8080 } ["ss"] ["lsof"] ["ss", "lsof"] []
      platformWorld0 rfl rfl (by decide) (by decide) (Or.inr (by decide)) (by decide)
      (Or.inr (by decide))⟩

end MiniAgent
